import Mathlib

/-!
Verification of the AI-response reconciliation core of the AI-Waheeb-Pro
editor against its specification.

The development shallowly embeds the Python source:

* `src/core/json_ai_processor.py` — the response recoverer
  (`JSONAIWorker._parse_ai_response`, `_clean_json_string`,
  `_create_fallback_response`), the worker thread (`JSONAIWorker.run`) and
  the coordinator (`JSONAIProcessor.process_user_input`);
* `src/core/unified_file_manager.py` — the file reconciliation engine
  (`UnifiedFileManager` open/save/rename/delete/copy/move, the
  watcher-event handlers and the `_ignore_watcher_events` flag);
* `src/ui/enhanced_main_window_improved.py` — the auto-rename collision
  flow in `EnhancedMainWindow.on_ai_response`.

Strings are processed as `List Char`; the regex-based repair passes of
`_clean_json_string` are embedded as character-level scanners that follow
`re.sub` semantics (left-to-right, non-overlapping, scanning resumes after
each match).  `json.loads` is embedded as a fuel-indexed recursive-descent
parser for the JSON grammar that Python's strict decoder accepts.
-/

namespace AIWP

/-! ### Character classes used by the repair regexes and the JSON grammar -/

/-- ASCII whitespace matched by the regex class `\s` (space, tab, newline,
carriage return, vertical tab, form feed).  Non-ASCII whitespace is outside
the modelled alphabet. -/
def isReWs (c : Char) : Bool :=
  c = ' ' || c = '\t' || c = '\n' || c = '\r' || c = '\x0b' || c = '\x0c'

/-- Whitespace accepted between tokens by Python's JSON decoder. -/
def isJsonWs (c : Char) : Bool :=
  c = ' ' || c = '\t' || c = '\n' || c = '\r'

/-- ASCII word characters matched by the regex class `\w`. -/
def isWordChar (c : Char) : Bool :=
  c.isAlphanum || c = '_'

/-- The negative lookbehind `(?<![:"\w])` of the two comment-stripping
substitutions in `_clean_json_string` (json_ai_processor.py lines 359-360):
a match may not be immediately preceded by a colon, a double quote, or a
word character.  `none` is the start of the string, where the lookbehind
succeeds. -/
def lookbehindOk : Option Char → Bool
  | none => true
  | some p => !(p = ':' || p = '"' || isWordChar p)

/-! ### Step 1: JSON block extraction

`re.search(r'\{.*\}', text, re.DOTALL)` (json_ai_processor.py line 304 and
line 349): with a greedy `.*` in DOTALL mode the match, when it exists,
runs from the first opening brace to the last closing brace of the text. -/

/-- Substring from the first `{` to the last `}` (inclusive); `none` when
no closing brace follows an opening brace. -/
def extractJsonBlock (l : List Char) : Option (List Char) :=
  let l' := l.dropWhile (fun c => c ≠ '{')
  if l' = [] then none
  else
    let r := l'.reverse.dropWhile (fun c => c ≠ '}')
    if r = [] then none else some r.reverse

/-! ### Step 2: comment stripping

`re.sub(r'(?<![:"\w])//.*', '', json_str)` followed by
`re.sub(r'(?<![:"\w])#.*', '', json_str)` (lines 359-360).  `.*` does not
cross newlines, so each match removes the marker and the remainder of its
line.  The scanners below walk the string once; the `Bool` argument is the
"currently deleting up to end of line" state, the `Option Char` argument is
the character preceding the current position (for the lookbehind). -/

/-- Scanner for the `//`-comment substitution. -/
def stripSlashComments : Option Char → Bool → List Char → List Char
  | _, _, [] => []
  | prev, true, c :: rest =>
    if c = '\n' then c :: stripSlashComments (some c) false rest
    else stripSlashComments prev true rest
  | prev, false, c :: rest =>
    if c = '/' && rest.head? = some '/' && lookbehindOk prev then
      stripSlashComments prev true rest
    else c :: stripSlashComments (some c) false rest

/-- Scanner for the `#`-comment substitution. -/
def stripHashComments : Option Char → Bool → List Char → List Char
  | _, _, [] => []
  | prev, true, c :: rest =>
    if c = '\n' then c :: stripHashComments (some c) false rest
    else stripHashComments prev true rest
  | prev, false, c :: rest =>
    if c = '#' && lookbehindOk prev then
      stripHashComments prev true rest
    else c :: stripHashComments (some c) false rest

/-! ### Step 3: newline "escaping"

`re.sub(r'(?<!\\)\n', '\\n', json_str)` (line 365).  The replacement
argument is the two-character string backslash-`n`; `re.sub` processes
escape sequences in the replacement template, so `\n` is expanded to a
single newline character.  The substitution therefore rewrites every
newline not preceded by a backslash to a newline: it is the identity.
It is embedded literally (match, then emit the expanded replacement). -/

/-- Scanner for the newline substitution; the replacement emitted in the
match branch is the newline that the template `\n` expands to. -/
def escapeNewlines : Option Char → List Char → List Char
  | _, [] => []
  | prev, c :: rest =>
    if c = '\n' && prev ≠ some '\\' then
      '\n' :: escapeNewlines (some '\n') rest
    else c :: escapeNewlines (some c) rest

/-! ### Step 4: missing-comma insertion

`re.sub(r'("\s*?\n?\s*?")\s*(")', r'\1,\2', json_str)` (line 370).  Since
`\n` is itself in `\s`, the first group matches a quote, a run of
whitespace, and a quote; the match then requires more whitespace and a
third quote.  The replacement keeps group 1, inserts a comma, keeps the
third quote, and drops the middle whitespace run.  The scanner tracks how
much of a candidate match has been seen: `afterQ1` holds the whitespace
seen after a first quote, `afterQ2` the whitespace after a second.  On
failure the buffered characters are flushed unchanged; a failed candidate
cannot contain the start of another match (whitespace and the failing
character are not quotes), except that the second quote itself restarts a
candidate, which the `afterQ2` flush accounts for (the characters after it
are whitespace and a non-quote, so that candidate fails immediately too). -/

inductive ICState where
  | normal
  | afterQ1 (ws1 : List Char)
  | afterQ2 (ws1 ws2 : List Char)

/-- Scanner for the missing-comma substitution. -/
def insertCommasGo : ICState → List Char → List Char
  | .normal, [] => []
  | .afterQ1 ws1, [] => '"' :: ws1
  | .afterQ2 ws1 ws2, [] => '"' :: ws1 ++ '"' :: ws2
  | .normal, c :: rest =>
    if c = '"' then insertCommasGo (.afterQ1 []) rest
    else c :: insertCommasGo .normal rest
  | .afterQ1 ws1, c :: rest =>
    if c = '"' then insertCommasGo (.afterQ2 ws1 []) rest
    else if isReWs c then insertCommasGo (.afterQ1 (ws1 ++ [c])) rest
    else '"' :: ws1 ++ c :: insertCommasGo .normal rest
  | .afterQ2 ws1 ws2, c :: rest =>
    if c = '"' then '"' :: ws1 ++ '"' :: ',' :: '"' :: insertCommasGo .normal rest
    else if isReWs c then insertCommasGo (.afterQ2 ws1 (ws2 ++ [c])) rest
    else '"' :: ws1 ++ '"' :: ws2 ++ c :: insertCommasGo .normal rest

/-! ### Step 5: trailing-comma removal

`re.sub(r',(\s*[}\]])', r'\1', json_str)` (line 373): a comma followed by
whitespace and a closing brace or bracket is replaced by the whitespace and
the bracket.  The scanner buffers the whitespace seen after a comma; on a
non-matching character it flushes the comma and buffer (a new comma
restarts a candidate, mirroring the regex rescanning from the position
after the first comma). -/

/-- Scanner for the trailing-comma substitution; the `Option` state holds
the whitespace buffered after a pending comma. -/
def removeTrailingCommasGo : Option (List Char) → List Char → List Char
  | none, [] => []
  | some ws, [] => ',' :: ws
  | none, c :: rest =>
    if c = ',' then removeTrailingCommasGo (some []) rest
    else c :: removeTrailingCommasGo none rest
  | some ws, c :: rest =>
    if c = '}' || c = ']' then ws ++ c :: removeTrailingCommasGo none rest
    else if isReWs c then removeTrailingCommasGo (some (ws ++ [c])) rest
    else if c = ',' then ',' :: ws ++ removeTrailingCommasGo (some []) rest
    else ',' :: ws ++ c :: removeTrailingCommasGo none rest

/-! ### Step 6: dropping blank lines

`os.linesep.join([s for s in json_str.splitlines() if s.strip()])`
(line 376), with `os.linesep = "\n"` (the application targets a POSIX
runtime in the modelled configuration).  `str.splitlines` breaks on the
ASCII line terminators modelled below (`\r\n` counts as one break); a line
survives when `s.strip()` is non-empty, i.e. when it contains a
non-whitespace character. -/

/-- ASCII line terminators recognised by `str.splitlines`. -/
def isLineBreakChar (c : Char) : Bool :=
  c = '\n' || c = '\r' || c = '\x0b' || c = '\x0c' || c = '\x1c' ||
  c = '\x1d' || c = '\x1e'

/-- Split into lines, accumulating the current line in reverse. -/
def splitLinesGo (cur : List Char) : List Char → List (List Char)
  | [] => [cur.reverse]
  | '\r' :: '\n' :: rest => cur.reverse :: splitLinesGo [] rest
  | c :: rest =>
    if isLineBreakChar c then cur.reverse :: splitLinesGo [] rest
    else splitLinesGo (c :: cur) rest

/-- Keep the non-blank lines and rejoin them with `\n`.  (Python's
`splitlines` yields no trailing empty line; the scanner above may, but a
trailing empty line is blank and is filtered out, so the results agree.) -/
def dropEmptyLines (l : List Char) : List Char :=
  List.intercalate ['\n']
    ((splitLinesGo [] l).filter (fun ln => ln.any (fun c => !isReWs c)))

/-- `JSONAIWorker._clean_json_string` (json_ai_processor.py lines 343-379):
re-extract the brace-delimited block (returning the input unchanged when
there is none), then apply the five repair substitutions in source order. -/
def cleanJsonString (l : List Char) : List Char :=
  match extractJsonBlock l with
  | none => l
  | some b =>
      dropEmptyLines
        (removeTrailingCommasGo none
          (insertCommasGo .normal
            (escapeNewlines none
              (stripHashComments none false
                (stripSlashComments none false b)))))

/-! ### The JSON parser (`json.loads`)

Embedded as a fuel-indexed recursive-descent parser.  Python's strict
decoder accepts: objects, arrays, strings (with the eight escape sequences
and `\uXXXX`, rejecting raw control characters below U+0020), numbers
(also the constants `NaN`, `Infinity`, `-Infinity`), `true`, `false`,
`null`, and the four whitespace characters between tokens.  Numeric tokens
are kept as their source text — the recoverer never computes with numbers,
so their floating-point value is not modelled.  A `\uXXXX` escape that
denotes a surrogate is mapped to `U+0000` (Lean characters are scalar
values); no claim depends on surrogate handling.  The fuel only bounds the
recursion depth; it is chosen large enough (input length plus five) that a
parse never runs out of fuel, so `none` means a genuine syntax error. -/

inductive JValue where
  | str (s : String)
  | num (raw : String)
  | bool (b : Bool)
  | null
  | arr (elems : List JValue)
  | obj (members : List (String × JValue))

/-- Value of a hex digit, if any. -/
def hexDigitVal (c : Char) : Option Nat :=
  if '0' ≤ c && c ≤ '9' then some (c.toNat - 48)
  else if 'a' ≤ c && c ≤ 'f' then some (c.toNat - 87)
  else if 'A' ≤ c && c ≤ 'F' then some (c.toNat - 55)
  else none

/-- Body of a JSON string after the opening quote: returns the decoded
characters and the remainder after the closing quote. -/
def parseStringBody : List Char → Option (List Char × List Char)
  | [] => none
  | '"' :: rest => some ([], rest)
  | '\\' :: rest =>
    match rest with
    | '"' :: r => (parseStringBody r).map (fun p => ('"' :: p.1, p.2))
    | '\\' :: r => (parseStringBody r).map (fun p => ('\\' :: p.1, p.2))
    | '/' :: r => (parseStringBody r).map (fun p => ('/' :: p.1, p.2))
    | 'b' :: r => (parseStringBody r).map (fun p => ('\x08' :: p.1, p.2))
    | 'f' :: r => (parseStringBody r).map (fun p => ('\x0c' :: p.1, p.2))
    | 'n' :: r => (parseStringBody r).map (fun p => ('\n' :: p.1, p.2))
    | 'r' :: r => (parseStringBody r).map (fun p => ('\r' :: p.1, p.2))
    | 't' :: r => (parseStringBody r).map (fun p => ('\t' :: p.1, p.2))
    | 'u' :: h1 :: h2 :: h3 :: h4 :: r =>
      match hexDigitVal h1, hexDigitVal h2, hexDigitVal h3, hexDigitVal h4 with
      | some a, some b, some c, some d =>
        (parseStringBody r).map
          (fun p => (Char.ofNat (((a * 16 + b) * 16 + c) * 16 + d) :: p.1, p.2))
      | _, _, _, _ => none
    | _ => none
  | c :: rest =>
    if c.toNat < 32 then none
    else (parseStringBody rest).map (fun p => (c :: p.1, p.2))

/-- Digits of a JSON number token after an optional sign: `0` or a nonzero
leading digit with more digits, an optional fraction, an optional exponent.
Returns the token characters and the remainder. -/
def parseNumberDigits (l : List Char) : Option (List Char × List Char) :=
  let ip := l.takeWhile Char.isDigit
  let r1 := l.dropWhile Char.isDigit
  if ip = [] then none
  else if ip.head? = some '0' && ip.length ≠ 1 then none
  else
    let step2 :=
      match r1 with
      | '.' :: r2 =>
        let fp := r2.takeWhile Char.isDigit
        if fp = [] then none
        else some (ip ++ '.' :: fp, r2.dropWhile Char.isDigit)
      | _ => some (ip, r1)
    match step2 with
    | none => none
    | some (tok, r3) =>
      match r3 with
      | 'e' :: r4 =>
        match r4 with
        | '+' :: r5 =>
          let ep := r5.takeWhile Char.isDigit
          if ep = [] then none
          else some (tok ++ 'e' :: '+' :: ep, r5.dropWhile Char.isDigit)
        | '-' :: r5 =>
          let ep := r5.takeWhile Char.isDigit
          if ep = [] then none
          else some (tok ++ 'e' :: '-' :: ep, r5.dropWhile Char.isDigit)
        | _ =>
          let ep := r4.takeWhile Char.isDigit
          if ep = [] then none
          else some (tok ++ 'e' :: ep, r4.dropWhile Char.isDigit)
      | 'E' :: r4 =>
        match r4 with
        | '+' :: r5 =>
          let ep := r5.takeWhile Char.isDigit
          if ep = [] then none
          else some (tok ++ 'E' :: '+' :: ep, r5.dropWhile Char.isDigit)
        | '-' :: r5 =>
          let ep := r5.takeWhile Char.isDigit
          if ep = [] then none
          else some (tok ++ 'E' :: '-' :: ep, r5.dropWhile Char.isDigit)
        | _ =>
          let ep := r4.takeWhile Char.isDigit
          if ep = [] then none
          else some (tok ++ 'E' :: ep, r4.dropWhile Char.isDigit)
      | _ => some (tok, r3)

/-- A JSON number token with optional leading minus sign. -/
def parseNumberToken (l : List Char) : Option (List Char × List Char) :=
  match l with
  | '-' :: r => (parseNumberDigits r).map (fun p => ('-' :: p.1, p.2))
  | _ => parseNumberDigits l

/-- Python `dict` assignment `d[k] = v`: update the existing binding in
place, or append a new one. -/
def dictInsert : List (String × JValue) → String → JValue → List (String × JValue)
  | [], k, v => [(k, v)]
  | (k', v') :: rest, k, v =>
    if k' = k then (k', v) :: rest
    else (k', v') :: dictInsert rest k v

/-- Fold a member list into a Python dict (later duplicate keys win, at the
first occurrence's position, as in `json.loads`). -/
def dedupPairs (ps : List (String × JValue)) : List (String × JValue) :=
  ps.foldl (fun d p => dictInsert d p.1 p.2) []

/-- `k in d` / `d[k]` on a Python dict. -/
def pyLookup (d : List (String × JValue)) (k : String) : Option JValue :=
  (d.find? (fun p => p.1 = k)).map (fun p => p.2)

/-- The parsing jobs of the recursive descent: a value, the members of an
object after its `{`, or the elements of an array after its `[`. -/
inductive ParseJob where
  | val (l : List Char)
  | members (l : List Char)
  | elems (l : List Char)

/-- Results corresponding to each `ParseJob`. -/
inductive ParseOut where
  | v (x : JValue) (rest : List Char)
  | m (xs : List (String × JValue)) (rest : List Char)
  | e (xs : List JValue) (rest : List Char)

/-- The recursive-descent core.  Structural recursion on the fuel keeps the
function kernel-reducible; each recursive call consumes at least one input
character, so fuel `length + 1` already never runs out. -/
def parseF : Nat → ParseJob → Option ParseOut
  | 0, _ => none
  | fuel + 1, .val l =>
    match l.dropWhile isJsonWs with
    | [] => none
    | '"' :: rest =>
      (parseStringBody rest).map (fun p => .v (.str (String.mk p.1)) p.2)
    | '{' :: rest =>
      (match parseF fuel (.members rest) with
       | some (.m xs r) => some (.v (.obj (dedupPairs xs)) r)
       | _ => none)
    | '[' :: rest =>
      (match parseF fuel (.elems rest) with
       | some (.e xs r) => some (.v (.arr xs) r)
       | _ => none)
    | 't' :: 'r' :: 'u' :: 'e' :: rest => some (.v (.bool true) rest)
    | 'f' :: 'a' :: 'l' :: 's' :: 'e' :: rest => some (.v (.bool false) rest)
    | 'n' :: 'u' :: 'l' :: 'l' :: rest => some (.v .null rest)
    | 'N' :: 'a' :: 'N' :: rest => some (.v (.num "NaN") rest)
    | 'I' :: 'n' :: 'f' :: 'i' :: 'n' :: 'i' :: 't' :: 'y' :: rest =>
      some (.v (.num "Infinity") rest)
    | '-' :: 'I' :: 'n' :: 'f' :: 'i' :: 'n' :: 'i' :: 't' :: 'y' :: rest =>
      some (.v (.num "-Infinity") rest)
    | l' =>
      (parseNumberToken l').map (fun p => .v (.num (String.mk p.1)) p.2)
  | fuel + 1, .members l =>
    match l.dropWhile isJsonWs with
    | '}' :: rest => some (.m [] rest)
    | '"' :: rest =>
      (match parseStringBody rest with
       | none => none
       | some (k, r1) =>
         match r1.dropWhile isJsonWs with
         | ':' :: r2 =>
           (match parseF fuel (.val r2) with
            | some (.v v r3) =>
              (match r3.dropWhile isJsonWs with
               | ',' :: r4 =>
                 (match parseF fuel (.members r4) with
                  | some (.m xs r5) => some (.m ((String.mk k, v) :: xs) r5)
                  | _ => none)
               | '}' :: r4 => some (.m [(String.mk k, v)] r4)
               | _ => none)
            | _ => none)
         | _ => none)
    | _ => none
  | fuel + 1, .elems l =>
    match l.dropWhile isJsonWs with
    | ']' :: rest => some (.e [] rest)
    | l' =>
      (match parseF fuel (.val l') with
       | some (.v v r1) =>
         (match r1.dropWhile isJsonWs with
          | ',' :: r2 =>
            (match parseF fuel (.elems r2) with
             | some (.e xs r3) => some (.e (v :: xs) r3)
             | _ => none)
          | ']' :: r2 => some (.e [v] r2)
          | _ => none)
       | _ => none)

/-- `json.loads`: parse one value and require only whitespace after it. -/
def jsonParse (l : List Char) : Option JValue :=
  match parseF (l.length + 5) (.val l) with
  | some (.v v rest) => if rest.dropWhile isJsonWs = [] then some v else none
  | _ => none

/-! ### The recoverer top level (`_parse_ai_response`) -/

/-- `JSONAIWorker._create_fallback_response` (json_ai_processor.py lines
382-397): the action is `general_response`, the content is the entire raw
response text, the explanation states that no structured response could be
produced. -/
def fallbackResponse (raw : String) : List (String × JValue) :=
  [("action", .str "general_response"),
   ("content", .str raw),
   ("explanation", .str "لم يتمكن AI من تقديم استجابة منظمة، تم إظهار النص الخام.")]

/-- The response built by the outer `except Exception` handler of
`_parse_ai_response` (lines 335-341).  The Python interpolates the
exception text into the content; the embedding keeps the fixed prefix
only.  This branch is unreachable: it corresponds to `json.loads`
succeeding with a non-dict value, which cannot happen for input that
starts with an opening brace. -/
def errorResponse : List (String × JValue) :=
  [("action", .str "error"),
   ("content", .str "خطأ في تحليل الاستجابة"),
   ("explanation", .str "فشل في تحليل استجابة الذكاء الاصطناعي")]

/-- The field-defaulting block of `_parse_ai_response` (lines 315-326):
missing `action` defaults to `add_comment`, missing `content` to the full
raw response text, missing `explanation` to a generic string; present
fields are kept. -/
def applyDefaults (raw : String) (m : List (String × JValue)) :
    List (String × JValue) :=
  let m1 := if (pyLookup m "action").isNone
            then dictInsert m "action" (.str "add_comment") else m
  let m2 := if (pyLookup m1 "content").isNone
            then dictInsert m1 "content" (.str raw) else m1
  if (pyLookup m2 "explanation").isNone
  then dictInsert m2 "explanation" (.str "تم معالجة الطلب") else m2

/-- Dispatch on the outcome of `json.loads`: a parsed dict is defaulted, a
failed parse (`json.JSONDecodeError`) falls back, and a non-dict success —
unreachable for brace-delimited input — corresponds to the `TypeError`
caught by the outer handler. -/
def dispatchParsed (s : String) (p : Option JValue) : List (String × JValue) :=
  match p with
  | some (.obj m) => applyDefaults s m
  | some _ => errorResponse
  | none => fallbackResponse s

/-- `JSONAIWorker._parse_ai_response` (lines 299-341): extract the brace
block, clean it, parse it, default the fields; fall back to
`fallbackResponse` when there is no block or the parse fails.  The
function is total: every parse error is absorbed. -/
def parseAIResponse (s : String) : List (String × JValue) :=
  match extractJsonBlock s.data with
  | none => fallbackResponse s
  | some block => dispatchParsed s (jsonParse (cleanJsonString block))

/-- A well-formed LLM reply, valid JSON with all three fields present,
whose `content` value contains a space-preceded `//`. -/
def c2CexInput : String :=
  "\x7b\"action\": \"add_code\", \"content\": \"a // b\", \"explanation\": \"e\"\x7d"

/-! ## The File Reconciliation Engine

Embedding of `UnifiedFileManager` (src/core/unified_file_manager.py).  The
`open_files` dictionary becomes an association list of `FileEntry`
records; the file system visible to the engine becomes an association
list from paths to contents.  `hashlib.md5(content.encode(encoding,
errors='ignore')).hexdigest()` is kept opaque: the engine only ever
compares digests for equality, so the environment carries the digest
function as a parameter `md5Hex : encoding → content → digest`.  Likewise
`_detect_file_encoding` (a chardet probe over raw bytes) is carried as a
function of the on-disk content.  Timestamped backup copies
(`_create_backup`) live outside the modelled path namespace and recent-file
bookkeeping has no bearing on any claim; both are omitted.  The deferred
`QTimer.singleShot(500, self._reset_ignore_watcher_flag)` is modelled as
the separate transition `resetIgnoreWatcherFlag`, which fires when the
suppression window expires. -/

/-- One entry of `self.open_files`.  The two `last_known_*` keys are
`Option`s because `create_file` (line 1054) builds entries without them. -/
structure FileEntry where
  content : String
  modified : Bool
  encoding : String
  lineEnding : String
  externallyModified : Bool
  externallyDeleted : Bool
  lastKnownEditorContent : Option String
  lastKnownDiskContentHash : Option String
  deriving DecidableEq

/-- Engine state: the tracked open files, the visible file system, the
global `_ignore_watcher_events` flag and the configured default encoding. -/
structure FMState where
  openFiles : List (String × FileEntry)
  disk : List (String × String)
  ignoreWatcherEvents : Bool
  fileEncoding : String
  deriving DecidableEq

/-- The opaque collaborators: the md5 digest (as a function of encoding and
content) and the chardet-based encoding probe (as a function of content). -/
structure FMEnv where
  md5Hex : String → String → String
  detectFileEncoding : String → String

/-- Lookup in a path-keyed dictionary. -/
def alistLookup {α : Type} (l : List (String × α)) (k : String) : Option α :=
  (l.find? (fun p => p.1 = k)).map (fun p => p.2)

/-- Python dict assignment `d[k] = v` on a path-keyed dictionary. -/
def alistInsert {α : Type} : List (String × α) → String → α → List (String × α)
  | [], k, v => [(k, v)]
  | (k', v') :: rest, k, v =>
    if k' = k then (k', v) :: rest
    else (k', v') :: alistInsert rest k v

/-- Python `del d[k]` / `d.pop(k)` (removal part). -/
def alistErase {α : Type} : List (String × α) → String → List (String × α)
  | [], _ => []
  | (k', v') :: rest, k =>
    if k' = k then alistErase rest k else (k', v') :: alistErase rest k

/-- `UnifiedFileManager._detect_line_ending` (lines 1848-1857). -/
def containsCRLF : List Char → Bool
  | [] => false
  | '\r' :: '\n' :: _ => true
  | _ :: rest => containsCRLF rest

/-- `UnifiedFileManager._detect_line_ending` (lines 1848-1857). -/
def detectLineEnding (content : String) : String :=
  if containsCRLF content.data then "crlf"
  else if content.data.contains '\r' then "cr"
  else if content.data.contains '\n' then "lf"
  else "lf"

/-- `UnifiedFileManager._reset_ignore_watcher_flag` (lines 693-696): the
end of the self-echo suppression window. -/
def resetIgnoreWatcherFlag (st : FMState) : FMState :=
  { st with ignoreWatcherEvents := false }

/-- `UnifiedFileManager.open_file` (lines 1086-1135), success path with an
explicit path: read the content, hash it, insert a fresh entry with
`modified := false` and both conflict flags cleared; returns the path.
A missing file reports an error and leaves the state unchanged. -/
def openFile (env : FMEnv) (st : FMState) (path : String) :
    Option String × FMState :=
  match alistLookup st.disk path with
  | none => (none, st)
  | some content =>
    let encoding := env.detectFileEncoding content
    let h := env.md5Hex encoding content
    let entry : FileEntry :=
      { content := content, modified := false, encoding := encoding,
        lineEnding := detectLineEnding content,
        externallyModified := false, externallyDeleted := false,
        lastKnownEditorContent := some content,
        lastKnownDiskContentHash := some h }
    (some path, { st with openFiles := alistInsert st.openFiles path entry })

/-- `UnifiedFileManager.save_file` (lines 1137-1199), success path: raise
the watcher-suppression flag, write the file, hash the new content, then
update the tracked entry (clearing `modified` and `externally_modified`,
keeping `line_ending` and `externally_deleted`) or — for an untracked
path — insert a fresh entry with every flag cleared. -/
def saveFile (env : FMEnv) (st : FMState) (path content : String)
    (encArg : Option String) : Bool × FMState :=
  let encoding := encArg.getD st.fileEncoding
  let disk' := alistInsert st.disk path content
  let h := env.md5Hex encoding content
  let openFiles' :=
    match alistLookup st.openFiles path with
    | some fi =>
      alistInsert st.openFiles path
        { fi with content := content, modified := false, encoding := encoding,
                  externallyModified := false,
                  lastKnownEditorContent := some content,
                  lastKnownDiskContentHash := some h }
    | none =>
      alistInsert st.openFiles path
        { content := content, modified := false, encoding := encoding,
          lineEnding := detectLineEnding content,
          externallyModified := false, externallyDeleted := false,
          lastKnownEditorContent := some content,
          lastKnownDiskContentHash := some h }
  (true, { st with disk := disk', openFiles := openFiles',
                   ignoreWatcherEvents := true })

/-- `UnifiedFileManager.mark_file_modified` (lines 1953-1994): hash the
editor content, derive the flag from comparison with the stored disk hash
(`true` when no hash is stored), let an explicit `modified` argument
override the comparison, and store the editor content. -/
def markFileModified (env : FMEnv) (st : FMState) (path content : String)
    (forced : Option Bool) : FMState :=
  match alistLookup st.openFiles path with
  | none => st
  | some fi =>
    let h := env.md5Hex fi.encoding content
    let m1 : Bool :=
      (match fi.lastKnownDiskContentHash with
       | none => true
       | some dh => if h = dh then false else true)
    let m2 := forced.getD m1
    { st with openFiles :=
        alistInsert st.openFiles path ({ fi with modified := m2, content := content }) }

/-- `UnifiedFileManager.is_file_modified` (lines 1944-1951). -/
def isFileModified (st : FMState) (path : String) : Bool :=
  match alistLookup st.openFiles path with
  | none => false
  | some fi => fi.modified

/-- `UnifiedFileManager._handle_internal_file_changed` (lines 982-995):
inside the suppression window the event is dropped entirely; otherwise it
is re-emitted and, for a tracked path, only the `externally_modified`
flag is raised. -/
def handleFileChanged (st : FMState) (path : String) : FMState :=
  if st.ignoreWatcherEvents then st
  else
    match alistLookup st.openFiles path with
    | none => st
    | some fi =>
      { st with openFiles :=
          alistInsert st.openFiles path { fi with externallyModified := true } }

/-- `UnifiedFileManager._handle_internal_file_removed` (lines 1006-1019):
like the change handler, but raising `externally_deleted`; the entry is
kept. -/
def handleFileRemoved (st : FMState) (path : String) : FMState :=
  if st.ignoreWatcherEvents then st
  else
    match alistLookup st.openFiles path with
    | none => st
    | some fi =>
      { st with openFiles :=
          alistInsert st.openFiles path { fi with externallyDeleted := true } }

/-- `UnifiedFileManager.create_file_with_content` (lines 698-753), success
path: raise the suppression flag, write the file (silently overwriting),
and track a fresh unmodified entry. -/
def createFileWithContent (env : FMEnv) (st : FMState) (path content : String) :
    Option String × FMState :=
  let encoding := st.fileEncoding
  let disk' := alistInsert st.disk path content
  let h := env.md5Hex encoding content
  let entry : FileEntry :=
    { content := content, modified := false, encoding := encoding,
      lineEnding := detectLineEnding content,
      externallyModified := false, externallyDeleted := false,
      lastKnownEditorContent := some content,
      lastKnownDiskContentHash := some h }
  (some path,
   { st with disk := disk', openFiles := alistInsert st.openFiles path entry,
             ignoreWatcherEvents := true })

/-- `UnifiedFileManager.delete_file` (lines 1253-1298): a missing path
fails before the flag is raised; otherwise the open entry is closed
without saving (`close_file(..., save_if_modified=False)`), the flag is
raised and the file removed. -/
def deleteFile (st : FMState) (path : String) : Bool × FMState :=
  if (alistLookup st.disk path).isNone then (false, st)
  else
    (true, { st with openFiles := alistErase st.openFiles path,
                     disk := alistErase st.disk path,
                     ignoreWatcherEvents := true })

/-- `UnifiedFileManager.rename_file` (lines 1300-1347): fails before the
flag when the source is missing or the target exists; otherwise raises the
flag, renames on disk, moves the open entry to the new key, and — line
1322 — sets its `modified` flag to `True` unconditionally ("the user may
need to save it under the new name"). -/
def renameFile (st : FMState) (oldPath newPath : String) : Bool × FMState :=
  match alistLookup st.disk oldPath with
  | none => (false, st)
  | some content =>
    if (alistLookup st.disk newPath).isSome then (false, st)
    else
      let disk' := alistInsert (alistErase st.disk oldPath) newPath content
      let openFiles' :=
        match alistLookup st.openFiles oldPath with
        | none => st.openFiles
        | some fi =>
          alistInsert (alistErase st.openFiles oldPath) newPath
            { fi with modified := true }
      (true, { st with disk := disk', openFiles := openFiles',
                       ignoreWatcherEvents := true })

/-- `UnifiedFileManager.copy_file` (lines 1349-1388): fails before the
flag when the source is missing; otherwise raises the flag and writes the
destination (`shutil.copy2` overwrites an existing destination file). -/
def copyFile (st : FMState) (srcPath dstPath : String) : Bool × FMState :=
  match alistLookup st.disk srcPath with
  | none => (false, st)
  | some content =>
    (true, { st with disk := alistInsert st.disk dstPath content,
                     ignoreWatcherEvents := true })

/-- `UnifiedFileManager.move_file` (lines 1390-1435): fails before the
flag when the source is missing; otherwise raises the flag, moves the file
and moves the open entry (without touching its flags). -/
def moveFile (st : FMState) (srcPath dstPath : String) : Bool × FMState :=
  match alistLookup st.disk srcPath with
  | none => (false, st)
  | some content =>
    let disk' := alistInsert (alistErase st.disk srcPath) dstPath content
    let openFiles' :=
      match alistLookup st.openFiles srcPath with
      | none => st.openFiles
      | some fi => alistInsert (alistErase st.openFiles srcPath) dstPath fi
    (true, { st with disk := disk', openFiles := openFiles',
                     ignoreWatcherEvents := true })

/-- A concrete digest environment for witnesses: the digest of a content
string is the content itself (any function of encoding and content is a
legitimate instance of the opaque `md5Hex`). -/
def idEnv : FMEnv := ⟨fun _ content => content, fun _ => "utf-8"⟩

/-- A tracked, unmodified entry for `a.py` with content `x`. -/
def wEntry : FileEntry :=
  { content := "x", modified := false, encoding := "utf-8", lineEnding := "lf",
    externallyModified := false, externallyDeleted := false,
    lastKnownEditorContent := some "x", lastKnownDiskContentHash := some "x" }

/-- A state tracking `a.py`, suppression window closed. -/
def wState : FMState :=
  { openFiles := [("a.py", wEntry)], disk := [("a.py", "x")],
    ignoreWatcherEvents := false, fileEncoding := "utf-8" }

/-- Initial state for the C3 counterexample: `a.py` exists on disk with
content `x`, nothing is tracked yet. -/
def c3State0 : FMState :=
  { openFiles := [], disk := [("a.py", "x")],
    ignoreWatcherEvents := false, fileEncoding := "utf-8" }

/-- `a.py` opened (tracked, unmodified). -/
def c3State1 : FMState := (openFile idEnv c3State0 "a.py").2

/-- `a.py` renamed to `b.py` with no intervening edit. -/
def c3State2 : FMState := (renameFile c3State1 "a.py" "b.py").2

/-- An engine state tracking nothing, with an empty disk. -/
def emptyState : FMState :=
  { openFiles := [], disk := [], ignoreWatcherEvents := false,
    fileEncoding := "utf-8" }

/-- The witness state with the suppression window open. -/
def wStateIgnored : FMState := { wState with ignoreWatcherEvents := true }

/-! ## The Async Request Coordinator and the AI worker

`JSONAIProcessor.process_user_input` (json_ai_processor.py lines 108-145)
and `JSONAIWorker.run` (lines 266-297).  The worker thread is embedded as
the sequence of externally visible events it produces.  The cooperative
cancellation flag is summarised by the time at which `cancel()` is
delivered, measured against the two points where `run` reads
`self.is_cancelled`: checkpoint 1 is the read after `send_message`
returns (line 277) and checkpoint 2 is the read guarding the terminal
emission (line 288, and line 293 on the exception path).
`cancelAt = some t` means the flag was set before checkpoint `t`
(`some 0`: before the run started); `none` means it is never set. -/

inductive WorkerEvent where
  | progressProcessing
  | sendMessage
  | progressAnalyzing
  | responseReady (resp : List (String × JValue))
  | errorOccurred

/-- Terminal notifications (`response_ready` / `error_occurred`). -/
def isTerminalEvent : WorkerEvent → Bool
  | .responseReady _ => true
  | .errorOccurred => true
  | _ => false

/-- Whether the cancellation flag is visible at a checkpoint. -/
def cancelledAt : Option Nat → Nat → Bool
  | none, _ => false
  | some t, chk => t ≤ chk

/-- `JSONAIWorker.run`: emit a progress notification, call
`chat.send_message` (outcome `none` models the call raising), then on
success check the flag (checkpoint 1), emit the second progress
notification, parse, check the flag again (checkpoint 2) and emit the
parsed response; on an exception emit the error only when not cancelled.
There is no flag check before the send. -/
def workerRun (cancelAt : Option Nat) (sendOutcome : Option String) :
    List WorkerEvent :=
  .progressProcessing :: .sendMessage ::
    (match sendOutcome with
     | none => if cancelledAt cancelAt 2 then [] else [.errorOccurred]
     | some raw =>
       if cancelledAt cancelAt 1 then []
       else .progressAnalyzing ::
         (if cancelledAt cancelAt 2 then []
          else [.responseReady (parseAIResponse raw)]))

inductive CoordEvent where
  | emitNotConnected
  | cancelPrevious
  | waitPrevious
  | startWorker
  deriving DecidableEq

/-- `JSONAIProcessor.process_user_input` (lines 108-145) as the sequence
of coordinator actions: bail out when disconnected; when a worker is in
flight, call `cancel()` on it and then block in `wait()` until its thread
terminates; only then start the new worker. -/
def processUserInput (isConnected workerRunning : Bool) : List CoordEvent :=
  if !isConnected then [.emitNotConnected]
  else (if workerRunning then [.cancelPrevious, .waitPrevious] else []) ++
    [.startWorker]

/-! ## The auto-rename collision flow

`EnhancedMainWindow.on_ai_response`, `create_file` branch
(src/ui/enhanced_main_window_improved.py lines 1187-1211): when the target
exists and the user picks the keep-both option, the flow tries
`{base}_copy{ext}`, then `{base}_copy2{ext}`, `{base}_copy3{ext}`, …
until `os.path.exists` fails, and creates the file there via
`create_file_with_content`.  The decimal rendering of the counter in the
f-string is embedded by `natDec`; `os.path.splitext` by `splitext`
(the argument is a bare file name in this flow); `os.path.join` by a
POSIX join.  The loop gets fuel `|disk| + 1`: the candidate names are
pairwise distinct, so among the first `|disk| + 1` of them one is always
free and the fuel is never exhausted. -/

/-- Decimal digits of `n` (most significant first), fuel-indexed to stay
kernel-reducible; fuel `n + 1` is always sufficient. -/
def natDecGo : Nat → Nat → List Char
  | 0, _ => []
  | fuel + 1, n =>
    if n < 10 then [Char.ofNat (48 + n)]
    else natDecGo fuel (n / 10) ++ [Char.ofNat (48 + n % 10)]

/-- The decimal rendering of `n`, as Python's f-string produces it. -/
def natDec (n : Nat) : List Char := natDecGo (n + 1) n

/-- Read digits back as a number. -/
def digitsVal (l : List Char) : Nat :=
  l.foldl (fun a c => a * 10 + (c.toNat - 48)) 0

/-- `os.path.splitext` on a bare file name: split at the last dot, except
that the leading dots of the name never count as an extension separator
(`.bashrc` has no extension). -/
def splitextData (cs : List Char) : List Char × List Char :=
  let ld := (cs.takeWhile (fun c => c = '.')).length
  let tailNoDot := (cs.reverse.takeWhile (fun c => c ≠ '.')).length
  if tailNoDot = cs.length then (cs, [])
  else
    let j := cs.length - 1 - tailNoDot
    if ld ≤ j then (cs.take j, cs.drop j) else (cs, [])

/-- `os.path.splitext` on a bare file name. -/
def splitext (s : String) : String × String :=
  let p := splitextData s.data
  (String.mk p.1, String.mk p.2)

/-- `os.path.join` with a relative name (POSIX separator). -/
def pathJoin (d f : String) : String := d ++ "/" ++ f

/-- Candidate `k` of the keep-both loop: `{base}_copy{ext}` first, then
`{base}_copy{k}{ext}` for `k ≥ 2` (lines 1200-1207). -/
def copyCandidate (base ext : String) (k : Nat) : String :=
  if k = 1 then base ++ "_copy" ++ ext
  else base ++ "_copy" ++ String.mk (natDec k) ++ ext

/-- The `while os.path.exists` loop (lines 1204-1207), fuel-indexed. -/
def autoRenameGo (diskPaths : List String) (dir base ext : String) :
    Nat → Nat → String
  | counter, 0 => pathJoin dir (copyCandidate base ext counter)
  | counter, fuel + 1 =>
    let full := pathJoin dir (copyCandidate base ext counter)
    if full ∈ diskPaths then autoRenameGo diskPaths dir base ext (counter + 1) fuel
    else full

/-- The full name-resolution of the keep-both branch: join the target
directory and file name; when the result exists, run the rename loop from
counter 1. -/
def resolveCreatePath (diskPaths : List String) (dir fileName : String) : String :=
  let full0 := pathJoin dir fileName
  if full0 ∈ diskPaths then
    let p := splitext fileName
    autoRenameGo diskPaths dir p.1 p.2 1 (diskPaths.length + 1)
  else full0

/-- The keep-both branch followed by `create_file_with_content`. -/
def createAutoRename (env : FMEnv) (st : FMState) (dir fileName content : String) :
    String × FMState :=
  let path := resolveCreatePath (st.disk.map Prod.fst) dir fileName
  (path, (createFileWithContent env st path content).2)

/-! ## The amended C2: repair preserves trigger-free well-formed replies

The counterexample showed the repair pipeline can mutate valid input.  The
amended statement: a canonical well-formed reply
`{"action": "A", "content": "C", "explanation": "E"}` is recovered with
exactly those three values, provided the values consist of printable ASCII
characters that avoid the repair heuristics' trigger characters (double
quote, backslash, `/`, `#`, comma) — quote and backslash are excluded by
well-formedness itself (the values are meant literally), control
characters are rejected by the strict JSON string grammar, and `/`, `#`,
and comma are what the comment-stripping and trailing-comma passes key
on. -/

/-- Printable ASCII characters that no repair heuristic keys on. -/
def safeValueChar (c : Char) : Bool :=
  32 ≤ c.toNat && c.toNat ≤ 126 && c ≠ '"' && c ≠ '\\' && c ≠ '/' &&
  c ≠ '#' && c ≠ ','

/-- The canonical reply `{"action": "<a>", "content": "<c>",
"explanation": "<e>"}`, in exploded character form. -/
def canonReplyData (a c e : List Char) : List Char :=
  '{' :: '"' :: 'a' :: 'c' :: 't' :: 'i' :: 'o' :: 'n' :: '"' :: ':' :: ' ' :: '"' ::
  (a ++ '"' :: ',' :: ' ' :: '"' :: 'c' :: 'o' :: 'n' :: 't' :: 'e' :: 'n' :: 't' :: '"' :: ':' :: ' ' :: '"' ::
  (c ++ '"' :: ',' :: ' ' :: '"' :: 'e' :: 'x' :: 'p' :: 'l' :: 'a' :: 'n' :: 'a' :: 't' :: 'i' :: 'o' :: 'n' :: '"' :: ':' :: ' ' :: '"' ::
  (e ++ '"' :: '}' :: [])))

/-- The concrete structural fragments of the canonical reply. -/
def canonSegA : List Char :=
  ['{', '"', 'a', 'c', 't', 'i', 'o', 'n', '"', ':', ' ', '"']

def canonSegB : List Char :=
  ['"', ',', ' ', '"', 'c', 'o', 'n', 't', 'e', 'n', 't', '"', ':', ' ', '"']

def canonSegC : List Char :=
  ['"', ',', ' ', '"', 'e', 'x', 'p', 'l', 'a', 'n', 'a', 't', 'i', 'o', 'n', '"', ':', ' ', '"']

def canonSegD : List Char := ['"', '}']

/-! ### Lemmas about Python-dict operations -/

theorem pyLookup_nil (k : String) : pyLookup [] k = none := rfl

theorem pyLookup_dictInsert_self (d : List (String × JValue)) (k : String)
    (v : JValue) : pyLookup (dictInsert d k v) k = some v := by
  induction d with
  | nil => simp [dictInsert, pyLookup]
  | cons hd tl ih =>
    by_cases h : hd.1 = k
    · simp [dictInsert, h, pyLookup]
    · simpa [dictInsert, h, pyLookup, List.find?] using ih

theorem pyLookup_dictInsert_ne (d : List (String × JValue)) (k k' : String)
    (v : JValue) (h : k' ≠ k) :
    pyLookup (dictInsert d k v) k' = pyLookup d k' := by
  induction d with
  | nil => simp [dictInsert, pyLookup, List.find?, Ne.symm h]
  | cons hd tl ih =>
    obtain ⟨a, b⟩ := hd
    by_cases h1 : a = k
    · subst h1
      simp [dictInsert, pyLookup, List.find?, Ne.symm h]
    · by_cases h2 : a = k'
      · subst h2
        simp [dictInsert, pyLookup, List.find?, h1]
      · simp only [pyLookup, dictInsert, List.find?] at ih ⊢
        simp [h1, h2, ih]

theorem pyLookup_dictInsert_isSome (d : List (String × JValue))
    (k k' : String) (v : JValue) (h : ∃ w, pyLookup d k' = some w) :
    ∃ w, pyLookup (dictInsert d k v) k' = some w := by
  by_cases hk : k' = k
  · subst hk; exact ⟨v, pyLookup_dictInsert_self d k' v⟩
  · rw [pyLookup_dictInsert_ne d k k' v hk]; exact h

/-- After defaulting, the `action` field is present. -/
theorem applyDefaults_action_isSome (raw : String) (m : List (String × JValue)) :
    ∃ a, pyLookup (applyDefaults raw m) "action" = some a := by
  unfold applyDefaults
  have step1 : ∃ a, pyLookup
      (if (pyLookup m "action").isNone
       then dictInsert m "action" (.str "add_comment") else m) "action" = some a := by
    by_cases h : (pyLookup m "action").isNone
    · simp only [h, if_true]; exact ⟨_, pyLookup_dictInsert_self m "action" _⟩
    · simp only [h, if_false]
      cases hv : pyLookup m "action" with
      | none => rw [hv] at h; simp at h
      | some w => exact ⟨w, hv⟩
  refine ?_
  set m1 := (if (pyLookup m "action").isNone
       then dictInsert m "action" (.str "add_comment") else m) with hm1
  set m2 := (if (pyLookup m1 "content").isNone
       then dictInsert m1 "content" (.str raw) else m1) with hm2
  have step2 : ∃ a, pyLookup m2 "action" = some a := by
    rw [hm2]
    by_cases h : (pyLookup m1 "content").isNone
    · simp only [h, if_true]
      exact pyLookup_dictInsert_isSome m1 "content" "action" _ step1
    · simp only [h, if_false]; exact step1
  by_cases h : (pyLookup m2 "explanation").isNone
  · simp only [h, if_true]
    exact pyLookup_dictInsert_isSome m2 "explanation" "action" _ step2
  · simp only [h, if_false]; exact step2

/-- After defaulting, the `content` field is present. -/
theorem applyDefaults_content_isSome (raw : String) (m : List (String × JValue)) :
    ∃ c, pyLookup (applyDefaults raw m) "content" = some c := by
  unfold applyDefaults
  set m1 := (if (pyLookup m "action").isNone
       then dictInsert m "action" (.str "add_comment") else m) with hm1
  set m2 := (if (pyLookup m1 "content").isNone
       then dictInsert m1 "content" (.str raw) else m1) with hm2
  have step2 : ∃ c, pyLookup m2 "content" = some c := by
    rw [hm2]
    by_cases h : (pyLookup m1 "content").isNone
    · simp only [h, if_true]; exact ⟨_, pyLookup_dictInsert_self m1 "content" _⟩
    · simp only [h, if_false]
      cases hv : pyLookup m1 "content" with
      | none => rw [hv] at h; simp at h
      | some w => exact ⟨w, hv⟩
  by_cases h : (pyLookup m2 "explanation").isNone
  · simp only [h, if_true]
    exact pyLookup_dictInsert_isSome m2 "explanation" "content" _ step2
  · simp only [h, if_false]; exact step2

/-- One defaulting step (`if key not in d: d[key] = w`) preserves the exact
value of every present field. -/
theorem defaultStep_preserves (d : List (String × JValue)) (k0 : String)
    (w : JValue) (k : String) (v : JValue) (hv : pyLookup d k = some v) :
    pyLookup (if (pyLookup d k0).isNone then dictInsert d k0 w else d) k = some v := by
  by_cases h : (pyLookup d k0).isNone
  · simp only [h, if_true]
    by_cases hk : k = k0
    · subst hk; rw [hv] at h; simp at h
    · rw [pyLookup_dictInsert_ne d k0 k w hk]; exact hv
  · simp only [h, if_false]; exact hv

/-- One defaulting step for a *different* key preserves absence. -/
theorem defaultStep_preserves_none (d : List (String × JValue)) (k0 : String)
    (w : JValue) (k : String) (hk : k ≠ k0) (hv : pyLookup d k = none) :
    pyLookup (if (pyLookup d k0).isNone then dictInsert d k0 w else d) k = none := by
  by_cases h : (pyLookup d k0).isNone
  · simp only [h, if_true]
    rw [pyLookup_dictInsert_ne d k0 k w hk]; exact hv
  · simp only [h, if_false]; exact hv

theorem applyDefaults_preserves (raw : String) (m : List (String × JValue))
    (k : String) (v : JValue) (hv : pyLookup m k = some v) :
    pyLookup (applyDefaults raw m) k = some v := by
  unfold applyDefaults
  exact defaultStep_preserves _ _ _ _ _
    (defaultStep_preserves _ _ _ _ _ (defaultStep_preserves _ _ _ _ _ hv))

theorem applyDefaults_missing_action (raw : String) (m : List (String × JValue))
    (h : pyLookup m "action" = none) :
    pyLookup (applyDefaults raw m) "action" = some (.str "add_comment") := by
  unfold applyDefaults
  refine defaultStep_preserves _ _ _ _ _ (defaultStep_preserves _ _ _ _ _ ?_)
  simp only [h, Option.isNone_none, if_true]
  exact pyLookup_dictInsert_self m "action" _

theorem applyDefaults_missing_content (raw : String) (m : List (String × JValue))
    (h : pyLookup m "content" = none) :
    pyLookup (applyDefaults raw m) "content" = some (.str raw) := by
  unfold applyDefaults
  refine defaultStep_preserves _ _ _ _ _ ?_
  have h1 : pyLookup
      (if (pyLookup m "action").isNone
       then dictInsert m "action" (.str "add_comment") else m) "content" = none :=
    defaultStep_preserves_none m "action" _ "content" (by decide) h
  simp only [h1, Option.isNone_none, if_true]
  exact pyLookup_dictInsert_self _ "content" _

theorem applyDefaults_missing_explanation (raw : String) (m : List (String × JValue))
    (h : pyLookup m "explanation" = none) :
    pyLookup (applyDefaults raw m) "explanation" = some (.str "تم معالجة الطلب") := by
  unfold applyDefaults
  have h1 : pyLookup
      (if (pyLookup m "action").isNone
       then dictInsert m "action" (.str "add_comment") else m) "explanation" = none :=
    defaultStep_preserves_none m "action" _ "explanation" (by decide) h
  have h2 : pyLookup
      (if (pyLookup (if (pyLookup m "action").isNone
            then dictInsert m "action" (.str "add_comment") else m) "content").isNone
       then dictInsert (if (pyLookup m "action").isNone
            then dictInsert m "action" (.str "add_comment") else m) "content" (.str raw)
       else (if (pyLookup m "action").isNone
            then dictInsert m "action" (.str "add_comment") else m)) "explanation" = none :=
    defaultStep_preserves_none _ "content" _ "explanation" (by decide) h1
  simp only [h2, Option.isNone_none, if_true]
  exact pyLookup_dictInsert_self _ "explanation" _

/-! ### Claim theorems for the Response Recoverer -/

/-- C1.  For every input string the recoverer returns a response whose
`action` (kind) and `content` fields are both set.  The embedded
`parseAIResponse` is a total function, mirroring the source, where every
`json.JSONDecodeError` is routed to the fallback response and any other
exception to the error response: the recoverer never raises. -/
theorem recoverer_totality (s : String) :
    (∃ a, pyLookup (parseAIResponse s) "action" = some a) ∧
    (∃ c, pyLookup (parseAIResponse s) "content" = some c) := by
  have key : parseAIResponse s = fallbackResponse s ∨
      parseAIResponse s = errorResponse ∨
      ∃ m, parseAIResponse s = applyDefaults s m := by
    unfold parseAIResponse
    split
    · exact Or.inl rfl
    · unfold dispatchParsed
      split
      · exact Or.inr (Or.inr ⟨_, rfl⟩)
      · exact Or.inr (Or.inl rfl)
      · exact Or.inl rfl
  rcases key with h | h | ⟨m, h⟩ <;> rw [h]
  · exact ⟨⟨_, rfl⟩, ⟨_, rfl⟩⟩
  · exact ⟨⟨_, rfl⟩, ⟨_, rfl⟩⟩
  · exact ⟨applyDefaults_action_isSome s m, applyDefaults_content_isSome s m⟩

/-- C8.  When the raw text has no brace-delimited block, or the extracted
block fails to parse, the recoverer returns the fallback action: its
`action` is the unstructured `general_response`, its `content` is the
entire original raw text, and its `explanation` states that no structured
response could be recovered. -/
theorem fallback_on_unparseable (s : String) :
    (extractJsonBlock s.data = none → parseAIResponse s = fallbackResponse s) ∧
    (∀ block, extractJsonBlock s.data = some block →
      jsonParse (cleanJsonString block) = none →
      parseAIResponse s = fallbackResponse s) ∧
    pyLookup (fallbackResponse s) "action" = some (.str "general_response") ∧
    pyLookup (fallbackResponse s) "content" = some (.str s) ∧
    pyLookup (fallbackResponse s) "explanation" =
      some (.str "لم يتمكن AI من تقديم استجابة منظمة، تم إظهار النص الخام.") := by
  refine ⟨?_, ?_, rfl, rfl, rfl⟩
  · intro hx; unfold parseAIResponse; rw [hx]
  · intro block hx hp; unfold parseAIResponse; simp only [hx, hp, dispatchParsed]

/-- Witness for C8 at the spec's own example input (no braces at all). -/
theorem fallback_on_unparseable_witness :
    parseAIResponse "I cannot do that." = fallbackResponse "I cannot do that." :=
  (fallback_on_unparseable "I cannot do that.").1 rfl

/-- C9.  When a JSON object is successfully parsed from the reply, the
result is the parsed object with defaults filled in: a missing `action`
becomes `add_comment`, a missing `content` becomes the full original raw
text (not merely the extracted block), a missing `explanation` becomes the
generic processed-message, and every present field keeps its value. -/
theorem field_defaulting (s : String) (block : List Char)
    (m : List (String × JValue))
    (hx : extractJsonBlock s.data = some block)
    (hp : jsonParse (cleanJsonString block) = some (.obj m)) :
    parseAIResponse s = applyDefaults s m ∧
    (pyLookup m "action" = none →
      pyLookup (parseAIResponse s) "action" = some (.str "add_comment")) ∧
    (pyLookup m "content" = none →
      pyLookup (parseAIResponse s) "content" = some (.str s)) ∧
    (pyLookup m "explanation" = none →
      pyLookup (parseAIResponse s) "explanation" = some (.str "تم معالجة الطلب")) ∧
    (∀ k v, pyLookup m k = some v → pyLookup (parseAIResponse s) k = some v) := by
  have hmain : parseAIResponse s = applyDefaults s m := by
    unfold parseAIResponse; simp only [hx, hp, dispatchParsed]
  refine ⟨hmain, ?_, ?_, ?_, ?_⟩
  · intro h; rw [hmain]; exact applyDefaults_missing_action s m h
  · intro h; rw [hmain]; exact applyDefaults_missing_content s m h
  · intro h; rw [hmain]; exact applyDefaults_missing_explanation s m h
  · intro k v h; rw [hmain]; exact applyDefaults_preserves s m k v h

/-- Witness for C9: a reply whose object has only `action`; `content`
defaults to the full raw text and the present `action` is kept. -/
theorem field_defaulting_witness :
    pyLookup (parseAIResponse "Sure! \x7b\"action\": \"add_code\"\x7d thanks") "content" =
        some (.str "Sure! \x7b\"action\": \"add_code\"\x7d thanks") ∧
    pyLookup (parseAIResponse "Sure! \x7b\"action\": \"add_code\"\x7d thanks") "action" =
        some (.str "add_code") := by
  refine ⟨?_, ?_⟩
  · exact (field_defaulting "Sure! \x7b\"action\": \"add_code\"\x7d thanks" _
      [("action", .str "add_code")] rfl rfl).2.2.1 rfl
  · exact (field_defaulting "Sure! \x7b\"action\": \"add_code\"\x7d thanks" _
      [("action", .str "add_code")] rfl rfl).2.2.2.2 "action" (.str "add_code") rfl

/-- Counterexample to C2 as stated.  The input is well-formed (its direct
parse yields the object with all fields present), yet the repair pipeline
mutates it: the comment-stripping pass removes everything from the `//`
inside the `content` string value to the end of the line, the mutilated
block no longer parses, and recovery returns the fallback action instead
of the original field values. -/
theorem repair_mutates_valid_input :
    jsonParse c2CexInput.data =
      some (.obj [("action", .str "add_code"), ("content", .str "a // b"),
                  ("explanation", .str "e")]) ∧
    parseAIResponse c2CexInput = fallbackResponse c2CexInput ∧
    pyLookup (parseAIResponse c2CexInput) "content" ≠ some (.str "a // b") ∧
    pyLookup (parseAIResponse c2CexInput) "explanation" ≠ some (.str "e") := by
  refine ⟨rfl, rfl, ?_, ?_⟩
  · intro h
    have h0 := (show pyLookup (parseAIResponse c2CexInput) "content" =
        some (.str c2CexInput) from rfl).symm.trans h
    have h1 : JValue.str c2CexInput = .str "a // b" := Option.some.inj h0
    have h2 : c2CexInput = "a // b" := by injection h1
    exact absurd h2 (by decide)
  · intro h
    have h0 := (show pyLookup (parseAIResponse c2CexInput) "explanation" =
        some (.str "لم يتمكن AI من تقديم استجابة منظمة، تم إظهار النص الخام.") from rfl).symm.trans h
    have h1 : JValue.str "لم يتمكن AI من تقديم استجابة منظمة، تم إظهار النص الخام." = .str "e" :=
      Option.some.inj h0
    have h2 : "لم يتمكن AI من تقديم استجابة منظمة، تم إظهار النص الخام." = "e" := by injection h1
    exact absurd h2 (by decide)

/-! ### Lemmas about path-keyed dictionaries -/

theorem alistLookup_insert_self {α : Type} (l : List (String × α)) (k : String)
    (v : α) : alistLookup (alistInsert l k v) k = some v := by
  induction l with
  | nil => simp [alistInsert, alistLookup]
  | cons hd tl ih =>
    by_cases h : hd.1 = k
    · simp [alistInsert, h, alistLookup]
    · simpa [alistInsert, h, alistLookup, List.find?] using ih

theorem alistLookup_insert_ne {α : Type} (l : List (String × α)) (k k' : String)
    (v : α) (h : k' ≠ k) :
    alistLookup (alistInsert l k v) k' = alistLookup l k' := by
  induction l with
  | nil => simp [alistInsert, alistLookup, List.find?, Ne.symm h]
  | cons hd tl ih =>
    obtain ⟨a, b⟩ := hd
    by_cases h1 : a = k
    · subst h1
      simp [alistInsert, alistLookup, List.find?, Ne.symm h]
    · by_cases h2 : a = k'
      · subst h2
        simp [alistInsert, alistLookup, List.find?, h1]
      · simp only [alistLookup, alistInsert, List.find?] at ih ⊢
        simp [h1, h2, ih]

theorem alistLookup_erase_ne {α : Type} (l : List (String × α)) (k k' : String)
    (h : k' ≠ k) : alistLookup (alistErase l k) k' = alistLookup l k' := by
  induction l with
  | nil => rfl
  | cons hd tl ih =>
    obtain ⟨a, b⟩ := hd
    by_cases h1 : a = k
    · subst h1
      simp only [alistErase, if_true, alistLookup, List.find?] at ih ⊢
      simp [Ne.symm h, ih]
    · by_cases h2 : a = k'
      · subst h2
        simp [alistErase, h1, alistLookup, List.find?]
      · simp only [alistErase, h1, if_false, alistLookup, List.find?] at ih ⊢
        simp [h1, h2, ih]

/-! ### Claim theorems for the File Reconciliation Engine -/

/-- C4.  Delivering a watcher `modified` event for a path never alters the
stored editor content of a tracked file: for the affected entry only the
`externally_modified` flag may change, every other field (and every other
entry, and the disk) is untouched; for a `removed` event only the
`externally_deleted` flag may change, and the entry itself is kept. -/
theorem external_change_non_clobber (st : FMState) (path : String) :
    (∀ fi, alistLookup st.openFiles path = some fi →
      ∃ fi', alistLookup (handleFileChanged st path).openFiles path = some fi' ∧
        fi'.content = fi.content ∧ fi'.modified = fi.modified ∧
        fi'.encoding = fi.encoding ∧ fi'.lineEnding = fi.lineEnding ∧
        fi'.externallyDeleted = fi.externallyDeleted ∧
        fi'.lastKnownEditorContent = fi.lastKnownEditorContent ∧
        fi'.lastKnownDiskContentHash = fi.lastKnownDiskContentHash) ∧
    (∀ p, p ≠ path →
      alistLookup (handleFileChanged st path).openFiles p = alistLookup st.openFiles p) ∧
    (handleFileChanged st path).disk = st.disk ∧
    (∀ fi, alistLookup st.openFiles path = some fi →
      ∃ fi', alistLookup (handleFileRemoved st path).openFiles path = some fi' ∧
        fi'.content = fi.content ∧ fi'.modified = fi.modified ∧
        fi'.encoding = fi.encoding ∧ fi'.lineEnding = fi.lineEnding ∧
        fi'.externallyModified = fi.externallyModified ∧
        fi'.lastKnownEditorContent = fi.lastKnownEditorContent ∧
        fi'.lastKnownDiskContentHash = fi.lastKnownDiskContentHash) ∧
    (∀ p, p ≠ path →
      alistLookup (handleFileRemoved st path).openFiles p = alistLookup st.openFiles p) ∧
    (handleFileRemoved st path).disk = st.disk := by
  refine ⟨?_, ?_, ?_, ?_, ?_, ?_⟩
  · intro fi hfi
    unfold handleFileChanged
    by_cases hig : st.ignoreWatcherEvents = true
    · simp only [hig, if_true]
      exact ⟨fi, hfi, rfl, rfl, rfl, rfl, rfl, rfl, rfl⟩
    · simp only [Bool.not_eq_true] at hig
      simp only [hig, Bool.false_eq_true, if_false, hfi]
      refine ⟨_, alistLookup_insert_self _ _ _, rfl, rfl, rfl, rfl, rfl, rfl, rfl⟩
  · intro p hp
    unfold handleFileChanged
    by_cases hig : st.ignoreWatcherEvents = true
    · simp [hig]
    · simp only [Bool.not_eq_true] at hig
      cases hfi : alistLookup st.openFiles path with
      | none => simp [hig, hfi]
      | some fi =>
        simp only [hig, Bool.false_eq_true, if_false, hfi]
        exact alistLookup_insert_ne _ _ _ _ hp
  · unfold handleFileChanged
    by_cases hig : st.ignoreWatcherEvents = true
    · simp [hig]
    · simp only [Bool.not_eq_true] at hig
      cases hfi : alistLookup st.openFiles path with
      | none => simp [hig, hfi]
      | some fi => simp [hig, hfi]
  · intro fi hfi
    unfold handleFileRemoved
    by_cases hig : st.ignoreWatcherEvents = true
    · simp only [hig, if_true]
      exact ⟨fi, hfi, rfl, rfl, rfl, rfl, rfl, rfl, rfl⟩
    · simp only [Bool.not_eq_true] at hig
      simp only [hig, Bool.false_eq_true, if_false, hfi]
      refine ⟨_, alistLookup_insert_self _ _ _, rfl, rfl, rfl, rfl, rfl, rfl, rfl⟩
  · intro p hp
    unfold handleFileRemoved
    by_cases hig : st.ignoreWatcherEvents = true
    · simp [hig]
    · simp only [Bool.not_eq_true] at hig
      cases hfi : alistLookup st.openFiles path with
      | none => simp [hig, hfi]
      | some fi =>
        simp only [hig, Bool.false_eq_true, if_false, hfi]
        exact alistLookup_insert_ne _ _ _ _ hp
  · unfold handleFileRemoved
    by_cases hig : st.ignoreWatcherEvents = true
    · simp [hig]
    · simp only [Bool.not_eq_true] at hig
      cases hfi : alistLookup st.openFiles path with
      | none => simp [hig, hfi]
      | some fi => simp [hig, hfi]

/-- Witness for C4 at a concrete tracked state. -/
theorem external_change_non_clobber_witness :
    (alistLookup (handleFileChanged wState "a.py").openFiles "a.py").map
        FileEntry.content = some "x" ∧
    (alistLookup (handleFileRemoved wState "a.py").openFiles "a.py").isSome = true := by
  obtain ⟨h1, _, _, h4, _, _⟩ := external_change_non_clobber wState "a.py"
  obtain ⟨fi', hl, hc, -, -, -, -, -, -⟩ := h1 wEntry rfl
  obtain ⟨fi2, hl2, -, -, -, -, -, -, -⟩ := h4 wEntry rfl
  constructor
  · rw [hl]
    show some fi'.content = some "x"
    rw [hc]
    rfl
  · rw [hl2]; rfl

/-- Counterexample to C3 as stated.  Open a file and rename it without any
content change: `rename_file` sets the entry's `modified` flag to `true`
although the digest of the unchanged editor content still equals the
stored disk-content hash.  The flag is therefore *not* always recomputed
from the hash comparison — `rename_file` (line 1322) sets it directly, so
the "if and only if" and the "never set independently" parts of the claim
fail. -/
theorem modified_flag_rename_cex :
    alistLookup c3State2.openFiles "b.py" =
      some { content := "x", modified := true, encoding := "utf-8",
             lineEnding := "lf", externallyModified := false,
             externallyDeleted := false, lastKnownEditorContent := some "x",
             lastKnownDiskContentHash := some "x" } ∧
    idEnv.md5Hex "utf-8" "x" = "x" ∧
    isFileModified c3State2 "b.py" = true := by
  exact ⟨rfl, rfl, rfl⟩

/-- C3 amended.  The flag is `false` immediately after `open_file` and
after a successful `save_file`; and whenever `mark_file_modified` runs
with no explicit override on an entry carrying a stored disk hash, the
flag is recomputed as "digest of the new editor content differs from the
stored hash" (an entry without a stored hash is marked modified
outright).  However the flag is not *solely* governed by that comparison:
`rename_file` sets it to `true` unconditionally, and `mark_file_modified`
accepts an explicit override (see the counterexample). -/
theorem modified_flag_amended (env : FMEnv) (st : FMState) (path content : String) :
    (∀ c0, alistLookup st.disk path = some c0 →
      (alistLookup (openFile env st path).2.openFiles path).map
        FileEntry.modified = some false) ∧
    ((alistLookup (saveFile env st path content none).2.openFiles path).map
        FileEntry.modified = some false) ∧
    (∀ fi dh, alistLookup st.openFiles path = some fi →
      fi.lastKnownDiskContentHash = some dh →
      (alistLookup (markFileModified env st path content none).openFiles path).map
          FileEntry.modified =
        some (if env.md5Hex fi.encoding content = dh then false else true)) ∧
    (∀ fi, alistLookup st.openFiles path = some fi →
      fi.lastKnownDiskContentHash = none →
      (alistLookup (markFileModified env st path content none).openFiles path).map
        FileEntry.modified = some true) := by
  refine ⟨?_, ?_, ?_, ?_⟩
  · intro c0 h
    simp only [openFile, h]
    rw [alistLookup_insert_self]
    rfl
  · cases hfi : alistLookup st.openFiles path with
    | none =>
      simp only [saveFile, hfi]
      rw [alistLookup_insert_self]
      rfl
    | some fi =>
      simp only [saveFile, hfi]
      rw [alistLookup_insert_self]
      rfl
  · intro fi dh hfi hdh
    simp only [markFileModified, hfi, hdh]
    rw [alistLookup_insert_self]
    rfl
  · intro fi hfi hdh
    simp only [markFileModified, hfi, hdh]
    rw [alistLookup_insert_self]
    rfl

/-- Witness for the amended C3: opening marks unmodified; marking with a
changed content flips the flag on, marking back with the original content
flips it off. -/
theorem modified_flag_amended_witness :
    (alistLookup c3State1.openFiles "a.py").map FileEntry.modified = some false ∧
    (alistLookup (markFileModified idEnv c3State1 "a.py" "y" none).openFiles "a.py").map
      FileEntry.modified = some true ∧
    (alistLookup (markFileModified idEnv c3State1 "a.py" "x" none).openFiles "a.py").map
      FileEntry.modified = some false := by
  refine ⟨?_, ?_, ?_⟩
  · exact (modified_flag_amended idEnv c3State0 "a.py" "y").1 "x" rfl
  · exact ((modified_flag_amended idEnv c3State1 "a.py" "y").2.2.1
      _ "x" rfl rfl).trans (by rfl)
  · exact ((modified_flag_amended idEnv c3State1 "a.py" "x").2.2.1
      _ "x" rfl rfl).trans (by rfl)

/-- C10.  Saving to a path that is not currently tracked (and succeeding)
creates a fresh entry for it: `modified`, `externally_modified` and
`externally_deleted` are all `false`, the stored disk-content hash is the
digest of the just-saved content, the stored content is the saved
content, and the path now exists on disk with that content. -/
theorem save_tracks_untracked (env : FMEnv) (st : FMState)
    (path content : String) (h : alistLookup st.openFiles path = none) :
    ∃ fi, alistLookup (saveFile env st path content none).2.openFiles path = some fi ∧
      fi.modified = false ∧ fi.externallyModified = false ∧
      fi.externallyDeleted = false ∧ fi.content = content ∧
      fi.lastKnownDiskContentHash = some (env.md5Hex st.fileEncoding content) ∧
      alistLookup (saveFile env st path content none).2.disk path = some content := by
  simp only [saveFile, h]
  exact ⟨_, alistLookup_insert_self _ _ _, rfl, rfl, rfl, rfl, rfl,
         alistLookup_insert_self _ _ _⟩

/-- Witness for C10 on the empty state. -/
theorem save_tracks_untracked_witness :
    alistLookup emptyState.openFiles "a.py" = none ∧
    ∃ fi, alistLookup (saveFile idEnv emptyState "a.py" "x" none).2.openFiles "a.py" = some fi ∧
      fi.modified = false ∧ fi.externallyModified = false ∧
      fi.externallyDeleted = false ∧ fi.content = "x" ∧
      fi.lastKnownDiskContentHash = some (idEnv.md5Hex emptyState.fileEncoding "x") ∧
      alistLookup (saveFile idEnv emptyState "a.py" "x" none).2.disk "a.py" = some "x" :=
  ⟨rfl, save_tracks_untracked idEnv emptyState "a.py" "x" rfl⟩

/-- C7.  Every mutating engine call that actually mutates (save, create,
delete, rename, copy, move — each on its success path; a call that fails
its precondition returns before touching anything) raises the
watcher-suppression flag; while the flag is up a watcher `modified` event
is dropped entirely (in particular the file's `externally_modified` flag
is not set), and once the deferred reset has fired the same event does
set the flag of a tracked file. -/
theorem self_echo_suppression (env : FMEnv) (st : FMState)
    (path content oldPath newPath srcPath dstPath p : String) :
    ((saveFile env st path content none).2.ignoreWatcherEvents = true) ∧
    ((createFileWithContent env st path content).2.ignoreWatcherEvents = true) ∧
    ((deleteFile st path).1 = true →
      (deleteFile st path).2.ignoreWatcherEvents = true) ∧
    ((renameFile st oldPath newPath).1 = true →
      (renameFile st oldPath newPath).2.ignoreWatcherEvents = true) ∧
    ((copyFile st srcPath dstPath).1 = true →
      (copyFile st srcPath dstPath).2.ignoreWatcherEvents = true) ∧
    ((moveFile st srcPath dstPath).1 = true →
      (moveFile st srcPath dstPath).2.ignoreWatcherEvents = true) ∧
    (st.ignoreWatcherEvents = true → handleFileChanged st p = st) ∧
    ((resetIgnoreWatcherFlag st).ignoreWatcherEvents = false) ∧
    (∀ fi, alistLookup st.openFiles p = some fi →
      (alistLookup (handleFileChanged (resetIgnoreWatcherFlag st) p).openFiles p).map
        FileEntry.externallyModified = some true) := by
  refine ⟨?_, rfl, ?_, ?_, ?_, ?_, ?_, rfl, ?_⟩
  · cases hfi : alistLookup st.openFiles path with
    | none => simp [saveFile, hfi]
    | some fi => simp [saveFile, hfi]
  · intro hs
    by_cases hd : (alistLookup st.disk path).isNone
    · simp [deleteFile, hd] at hs
    · simp [deleteFile, hd]
  · intro hs
    cases hold : alistLookup st.disk oldPath with
    | none => simp [renameFile, hold] at hs
    | some c0 =>
      by_cases hnew : (alistLookup st.disk newPath).isSome
      · simp [renameFile, hold, hnew] at hs
      · simp [renameFile, hold, hnew]
  · intro hs
    cases hsrc : alistLookup st.disk srcPath with
    | none => simp [copyFile, hsrc] at hs
    | some c0 => simp [copyFile, hsrc]
  · intro hs
    cases hsrc : alistLookup st.disk srcPath with
    | none => simp [moveFile, hsrc] at hs
    | some c0 => simp [moveFile, hsrc]
  · intro hig
    unfold handleFileChanged
    simp [hig]
  · intro fi hfi
    simp only [handleFileChanged, resetIgnoreWatcherFlag, Bool.false_eq_true,
      if_false, hfi]
    rw [alistLookup_insert_self]
    rfl

/-- Witness for C7: a concrete save raises the flag; with the flag up the
event is a no-op; after the reset the event marks the file. -/
theorem self_echo_suppression_witness :
    (saveFile idEnv wState "a.py" "y" none).2.ignoreWatcherEvents = true ∧
    (deleteFile wState "a.py").1 = true ∧
    (deleteFile wState "a.py").2.ignoreWatcherEvents = true ∧
    handleFileChanged wStateIgnored "a.py" = wStateIgnored ∧
    (alistLookup (handleFileChanged (resetIgnoreWatcherFlag wStateIgnored) "a.py").openFiles
        "a.py").map FileEntry.externallyModified = some true := by
  obtain ⟨h1, -, h3, -, -, -, h7, -, h9⟩ :=
    self_echo_suppression idEnv wStateIgnored "a.py" "y" "a.py" "b.py" "a.py" "b.py" "a.py"
  refine ⟨?_, rfl, ?_, ?_, ?_⟩
  · exact (self_echo_suppression idEnv wState "a.py" "y" "a.py" "b.py" "a.py" "b.py" "a.py").1
  · exact (self_echo_suppression idEnv wState "a.py" "y" "a.py" "b.py" "a.py" "b.py" "a.py").2.2.1 rfl
  · exact h7 rfl
  · exact h9 wEntry rfl

/-- Once cancelled, the flag stays visible at later checkpoints. -/
theorem cancelledAt_mono (cAt : Option Nat) (i j : Nat) (hij : i ≤ j)
    (h : cancelledAt cAt i = true) : cancelledAt cAt j = true := by
  cases cAt with
  | none => simp [cancelledAt] at h
  | some t =>
    simp only [cancelledAt, decide_eq_true_eq] at h ⊢
    omega

/-- Counterexample to C6 as stated: the worker reads its cancellation
flag after receiving and before emitting, but *not* before sending.  A
worker whose flag was set before it even started (`some 0`) still emits
the first progress notification and still performs `send_message`. -/
theorem worker_sends_despite_cancel_cex :
    cancelledAt (some 0) 0 = true ∧
    workerRun (some 0) (some "x") = [.progressProcessing, .sendMessage] ∧
    (workerRun (some 0) (some "x")).any (fun e =>
      match e with
      | .sendMessage => true
      | _ => false) = true := by
  exact ⟨rfl, rfl, rfl⟩

/-- C6 amended.  Submitting while a worker is in flight first signals
cancellation and blocks until the old thread has terminated, before the
new worker starts.  The worker checks its flag at two points — after
receiving the reply and again immediately before emitting the terminal
notification — and a worker whose flag is set by either check emits no
terminal notification at all (neither result nor error); with the flag
never set it emits exactly one terminal result. -/
theorem cancellation_amended (cAt : Option Nat) (raw : String)
    (outcome : Option String) :
    processUserInput true true = [.cancelPrevious, .waitPrevious, .startWorker] ∧
    processUserInput true false = [.startWorker] ∧
    (cancelledAt cAt 2 = true →
      ∀ e ∈ workerRun cAt outcome, isTerminalEvent e = false) ∧
    (cancelledAt cAt 1 = true →
      workerRun cAt (some raw) = [.progressProcessing, .sendMessage]) ∧
    (cancelledAt cAt 1 = false → cancelledAt cAt 2 = true →
      workerRun cAt (some raw) =
        [.progressProcessing, .sendMessage, .progressAnalyzing]) ∧
    (cancelledAt cAt 2 = false →
      workerRun cAt (some raw) =
        [.progressProcessing, .sendMessage, .progressAnalyzing,
         .responseReady (parseAIResponse raw)]) := by
  refine ⟨rfl, rfl, ?_, ?_, ?_, ?_⟩
  · intro h2 e he
    cases outcome with
    | none =>
      simp only [workerRun, h2, if_true, List.mem_cons, List.not_mem_nil,
        or_false] at he
      rcases he with rfl | rfl <;> rfl
    | some r =>
      by_cases h1 : cancelledAt cAt 1 = true
      · simp only [workerRun, h1, if_true, List.mem_cons, List.not_mem_nil,
          or_false] at he
        rcases he with rfl | rfl <;> rfl
      · simp only [Bool.not_eq_true] at h1
        simp only [workerRun, h1, Bool.false_eq_true, if_false, h2, if_true,
          List.mem_cons, List.not_mem_nil, or_false] at he
        rcases he with rfl | rfl | rfl <;> rfl
  · intro h1
    simp [workerRun, h1]
  · intro h1 h2
    simp [workerRun, h1, h2]
  · intro h2
    have h1 : cancelledAt cAt 1 = false := by
      by_contra hc
      simp only [Bool.not_eq_false] at hc
      rw [cancelledAt_mono cAt 1 2 (by omega) hc] at h2
      exact absurd h2 (by simp)
    simp [workerRun, h1, h2]

/-- Witness for the amended C6: a worker cancelled between the two checks
stops after the second progress notification; one cancelled before the
first check stops right after the send; an uncancelled worker emits its
single terminal result. -/
theorem cancellation_amended_witness :
    workerRun (some 2) (some "x") =
      [.progressProcessing, .sendMessage, .progressAnalyzing] ∧
    workerRun (some 1) (some "x") = [.progressProcessing, .sendMessage] ∧
    workerRun none (some "x") =
      [.progressProcessing, .sendMessage, .progressAnalyzing,
       .responseReady (parseAIResponse "x")] ∧
    isTerminalEvent .progressAnalyzing = false := by
  refine ⟨?_, ?_, ?_, rfl⟩
  · exact (cancellation_amended (some 2) "x" (some "x")).2.2.2.2.1 (by rfl) (by rfl)
  · exact (cancellation_amended (some 1) "x" (some "x")).2.2.2.1 (by rfl)
  · exact (cancellation_amended none "x" (some "x")).2.2.2.2.2 (by rfl)

theorem digitsVal_append (xs : List Char) (d : Char) :
    digitsVal (xs ++ [d]) = 10 * digitsVal xs + (d.toNat - 48) := by
  simp [digitsVal, List.foldl_append]
  ring

theorem toNat_digitChar (m : Nat) (h : m < 10) :
    (Char.ofNat (48 + m)).toNat = 48 + m := by
  interval_cases m <;> decide

theorem natDecGo_val : ∀ fuel n, n < 10 ^ fuel →
    digitsVal (natDecGo fuel n) = n := by
  intro fuel
  induction fuel with
  | zero =>
    intro n h
    simp only [pow_zero, Nat.lt_one_iff] at h
    simp [natDecGo, digitsVal, h]
  | succ fuel ih =>
    intro n h
    by_cases h10 : n < 10
    · simp [natDecGo, h10, digitsVal, toNat_digitChar n h10]
    · have hdiv : n / 10 < 10 ^ fuel := by
        rw [Nat.div_lt_iff_lt_mul (by norm_num)]
        calc n < 10 ^ (fuel + 1) := h
        _ = 10 ^ fuel * 10 := by ring
      simp only [natDecGo, h10, if_false]
      rw [digitsVal_append, ih (n / 10) hdiv, toNat_digitChar (n % 10) (Nat.mod_lt n (by norm_num))]
      omega

theorem natDec_val (n : Nat) : digitsVal (natDec n) = n := by
  refine natDecGo_val (n + 1) n ?_
  calc n < 2 ^ n := Nat.lt_two_pow n
  _ ≤ 10 ^ n := Nat.pow_le_pow_left (by norm_num) n
  _ ≤ 10 ^ (n + 1) := Nat.pow_le_pow_right (by norm_num) (Nat.le_succ n)

theorem natDec_inj (a b : Nat) (h : natDec a = natDec b) : a = b := by
  have ha := natDec_val a
  have hb := natDec_val b
  rw [← ha, ← hb, h]

theorem natDec_ne_nil (n : Nat) : natDec n ≠ [] := by
  unfold natDec natDecGo
  by_cases h10 : n < 10 <;> simp [h10]

theorem data_mk (l : List Char) : (String.mk l).data = l := rfl

/-- Distinct counters give distinct candidate paths. -/
theorem candidate_full_inj (dir base ext : String) (i j : Nat)
    (h : pathJoin dir (copyCandidate base ext i) =
      pathJoin dir (copyCandidate base ext j)) : i = j := by
  by_cases hi1 : i = 1 <;> by_cases hj1 : j = 1
  · rw [hi1, hj1]
  · exfalso
    have hlen := congrArg String.length h
    simp only [pathJoin, copyCandidate, hi1, hj1, if_true, if_false,
      String.length_append, String.length_mk] at hlen
    have hpos : 0 < (natDec j).length := List.length_pos.mpr (natDec_ne_nil j)
    omega
  · exfalso
    have hlen := congrArg String.length h
    simp only [pathJoin, copyCandidate, hi1, hj1, if_true, if_false,
      String.length_append, String.length_mk] at hlen
    have hpos : 0 < (natDec i).length := List.length_pos.mpr (natDec_ne_nil i)
    omega
  · have hd := congrArg String.data h
    simp only [pathJoin, copyCandidate, hi1, hj1, if_false, String.data_append,
      data_mk, List.append_assoc] at hd
    have h1 := List.append_cancel_left hd
    have h2 := List.append_cancel_left h1
    have h3 := List.append_cancel_left h2
    have h4 := List.append_cancel_left h3
    exact natDec_inj i j (List.append_cancel_right h4)

/-- Pigeonhole: among the first `|disk| + 1` candidates one is free. -/
theorem exists_free_candidate (diskPaths : List String) (dir base ext : String) :
    ∃ i, i < diskPaths.length + 1 ∧
      pathJoin dir (copyCandidate base ext (1 + i)) ∉ diskPaths := by
  by_contra hall
  push_neg at hall
  have hsub : (List.range (diskPaths.length + 1)).map
      (fun i => pathJoin dir (copyCandidate base ext (1 + i))) ⊆ diskPaths := by
    intro x hx
    simp only [List.mem_map, List.mem_range] at hx
    obtain ⟨i, hi, rfl⟩ := hx
    exact hall i hi
  have hnodup : ((List.range (diskPaths.length + 1)).map
      (fun i => pathJoin dir (copyCandidate base ext (1 + i)))).Nodup := by
    refine List.Nodup.map_on ?_ (List.nodup_range _)
    intro x hx y hy hxy
    have := candidate_full_inj dir base ext (1 + x) (1 + y) hxy
    omega
  have hle := (List.subperm_of_subset hnodup hsub).length_le
  simp only [List.length_map, List.length_range] at hle
  omega

/-- The loop returns the first free candidate at or after `counter`,
provided some candidate within the fuel is free. -/
theorem autoRenameGo_spec (diskPaths : List String) (dir base ext : String) :
    ∀ fuel counter,
      (∃ i, i < fuel ∧
        pathJoin dir (copyCandidate base ext (counter + i)) ∉ diskPaths) →
      autoRenameGo diskPaths dir base ext counter fuel ∉ diskPaths ∧
      ∃ k, counter ≤ k ∧
        autoRenameGo diskPaths dir base ext counter fuel =
          pathJoin dir (copyCandidate base ext k) ∧
        ∀ j, counter ≤ j → j < k →
          pathJoin dir (copyCandidate base ext j) ∈ diskPaths := by
  intro fuel
  induction fuel with
  | zero =>
    intro counter h
    obtain ⟨i, hi, -⟩ := h
    omega
  | succ fuel ih =>
    intro counter h
    by_cases hmem : pathJoin dir (copyCandidate base ext counter) ∈ diskPaths
    · have h' : ∃ i, i < fuel ∧
          pathJoin dir (copyCandidate base ext (counter + 1 + i)) ∉ diskPaths := by
        obtain ⟨i, hi, hni⟩ := h
        cases i with
        | zero => exact absurd hmem (by simpa using hni)
        | succ i' =>
          refine ⟨i', by omega, ?_⟩
          have harith : counter + 1 + i' = counter + (i' + 1) := by omega
          rw [harith]
          exact hni
      obtain ⟨hfree, k, hk, heq, hmin⟩ := ih (counter + 1) h'
      have hstep : autoRenameGo diskPaths dir base ext counter (fuel + 1) =
          autoRenameGo diskPaths dir base ext (counter + 1) fuel := by
        simp [autoRenameGo, hmem]
      refine ⟨by rw [hstep]; exact hfree, k, by omega,
        by rw [hstep]; exact heq, ?_⟩
      intro j hj1 hj2
      rcases Nat.eq_or_lt_of_le hj1 with rfl | hlt
      · exact hmem
      · exact hmin j (by omega) hj2
    · have hstep : autoRenameGo diskPaths dir base ext counter (fuel + 1) =
          pathJoin dir (copyCandidate base ext counter) := by
        simp [autoRenameGo, hmem]
      refine ⟨by rw [hstep]; exact hmem, counter, le_refl _, hstep, ?_⟩
      intro j hj1 hj2
      omega

/-- C5.  Creating a file whose target already exists under the keep-both
(auto-rename) policy never overwrites an existing file: the created path
is not previously present on disk, every previously present path keeps
its content, the new path holds the new content, and the chosen name is
`{base}_copy{ext}`, `{base}_copy2{ext}`, `{base}_copy3{ext}`, … — the
first candidate in that order that is free (every earlier candidate was
present). -/
theorem auto_rename_no_overwrite (env : FMEnv) (st : FMState)
    (dir fileName content : String)
    (hex : pathJoin dir fileName ∈ st.disk.map Prod.fst) :
    (createAutoRename env st dir fileName content).1 ∉ st.disk.map Prod.fst ∧
    (∀ q, q ∈ st.disk.map Prod.fst →
      alistLookup (createAutoRename env st dir fileName content).2.disk q =
        alistLookup st.disk q) ∧
    alistLookup (createAutoRename env st dir fileName content).2.disk
      (createAutoRename env st dir fileName content).1 = some content ∧
    ∃ k, 1 ≤ k ∧
      (createAutoRename env st dir fileName content).1 =
        pathJoin dir (copyCandidate (splitext fileName).1 (splitext fileName).2 k) ∧
      ∀ j, 1 ≤ j → j < k →
        pathJoin dir (copyCandidate (splitext fileName).1 (splitext fileName).2 j) ∈
          st.disk.map Prod.fst := by
  have hres : (createAutoRename env st dir fileName content).1 =
      autoRenameGo (st.disk.map Prod.fst) dir (splitext fileName).1
        (splitext fileName).2 1 ((st.disk.map Prod.fst).length + 1) := by
    simp [createAutoRename, resolveCreatePath, hex]
  obtain ⟨i, hi, hfree⟩ := exists_free_candidate (st.disk.map Prod.fst) dir
    (splitext fileName).1 (splitext fileName).2
  obtain ⟨hnot, k, hk1, hkeq, hkmin⟩ := autoRenameGo_spec (st.disk.map Prod.fst)
    dir (splitext fileName).1 (splitext fileName).2
    ((st.disk.map Prod.fst).length + 1) 1 ⟨i, hi, hfree⟩
  have hdisk : (createAutoRename env st dir fileName content).2.disk =
      alistInsert st.disk (createAutoRename env st dir fileName content).1 content := by
    simp [createAutoRename, createFileWithContent]
  refine ⟨by rw [hres]; exact hnot, ?_, ?_, k, hk1, by rw [hres]; exact hkeq, ?_⟩
  · intro q hq
    have hne : q ≠ (createAutoRename env st dir fileName content).1 := by
      intro hqe
      rw [hres] at hqe
      exact hnot (hqe ▸ hq)
    rw [hdisk]
    exact alistLookup_insert_ne st.disk _ q content hne
  · rw [hdisk]
    exact alistLookup_insert_self st.disk _ content
  · intro j hj1 hj2
    exact hkmin j hj1 hj2

/-- Witness for C5: the spec's own example — `app.py` and `app_copy.py`
both exist, so `app_copy2.py` is created and the old files are intact. -/
theorem auto_rename_no_overwrite_witness :
    pathJoin "proj" "app.py" ∈
      ([("proj/app.py", "old1"), ("proj/app_copy.py", "old2")] : List (String × String)).map
        Prod.fst ∧
    (createAutoRename idEnv
      { openFiles := [], disk := [("proj/app.py", "old1"), ("proj/app_copy.py", "old2")],
        ignoreWatcherEvents := false, fileEncoding := "utf-8" }
      "proj" "app.py" "new").1 = "proj/app_copy2.py" ∧
    (createAutoRename idEnv
      { openFiles := [], disk := [("proj/app.py", "old1"), ("proj/app_copy.py", "old2")],
        ignoreWatcherEvents := false, fileEncoding := "utf-8" }
      "proj" "app.py" "new").1 ∉
      ([("proj/app.py", "old1"), ("proj/app_copy.py", "old2")] : List (String × String)).map
        Prod.fst ∧
    alistLookup (createAutoRename idEnv
      { openFiles := [], disk := [("proj/app.py", "old1"), ("proj/app_copy.py", "old2")],
        ignoreWatcherEvents := false, fileEncoding := "utf-8" }
      "proj" "app.py" "new").2.disk "proj/app.py" = some "old1" := by
  have h := auto_rename_no_overwrite idEnv
    { openFiles := [], disk := [("proj/app.py", "old1"), ("proj/app_copy.py", "old2")],
      ignoreWatcherEvents := false, fileEncoding := "utf-8" }
    "proj" "app.py" "new" (by decide)
  exact ⟨by decide, by decide, h.1, (h.2.1 "proj/app.py" (by decide)).trans (by decide)⟩

theorem canon_eq_segs (a c e : List Char) :
    canonReplyData a c e =
      canonSegA ++ (a ++ (canonSegB ++ (c ++ (canonSegC ++ (e ++ canonSegD))))) := by
  simp [canonReplyData, canonSegA, canonSegB, canonSegC, canonSegD]

theorem all_mono {f g : Char → Bool} (v : List Char)
    (h : v.all g = true) (hfg : ∀ x, g x = true → f x = true) :
    v.all f = true := by
  rw [List.all_eq_true] at h ⊢
  intro x hx
  exact hfg x (h x hx)

/-- Character-level facts packaged from safety. -/
theorem safe_facts (x : Char) (h : safeValueChar x = true) :
    32 ≤ x.toNat ∧ x.toNat ≤ 126 ∧ x ≠ '"' ∧ x ≠ '\\' ∧ x ≠ '/' ∧
    x ≠ '#' ∧ x ≠ ',' := by
  simp only [safeValueChar, Bool.and_eq_true, decide_eq_true_eq] at h
  obtain ⟨⟨⟨⟨⟨⟨h1, h2⟩, h3⟩, h4⟩, h5⟩, h6⟩, h7⟩ := h
  exact ⟨h1, h2, h3, h4, h5, h6, h7⟩

/-- A safe whitespace character can only be the space. -/
theorem safe_ws_space (x : Char) (h : safeValueChar x = true)
    (hw : isReWs x = true) : x = ' ' := by
  simp only [isReWs, Bool.or_eq_true, decide_eq_true_eq] at hw
  have h32 := (safe_facts x h).1
  rcases hw with ((((h1 | h1) | h1) | h1) | h1) | h1
  · exact h1
  all_goals (subst h1; simp at h32)

/-- A safe character is not a line terminator. -/
theorem safe_not_linebreak (x : Char) (h : safeValueChar x = true) :
    isLineBreakChar x = false := by
  have h32 := (safe_facts x h).1
  by_contra hb
  simp only [Bool.not_eq_false] at hb
  simp only [isLineBreakChar, Bool.or_eq_true, decide_eq_true_eq] at hb
  rcases hb with (((((h1 | h1) | h1) | h1) | h1) | h1) | h1 <;>
    (subst h1; simp at h32)

/-- Transfer a per-character property to the whole canonical reply. -/
theorem canon_all_of (f : Char → Bool) (a c e : List Char)
    (ha : a.all safeValueChar = true) (hc : c.all safeValueChar = true)
    (he : e.all safeValueChar = true)
    (hmono : ∀ x, safeValueChar x = true → f x = true)
    (hA : canonSegA.all f = true) (hB : canonSegB.all f = true)
    (hC : canonSegC.all f = true) (hD : canonSegD.all f = true) :
    (canonReplyData a c e).all f = true := by
  rw [canon_eq_segs]
  simp only [List.all_append, Bool.and_eq_true]
  exact ⟨hA, all_mono a ha hmono, hB, all_mono c hc hmono,
    hC, all_mono e he hmono, hD⟩

/-- The `//`-comment scanner is the identity on slash-free text. -/
theorem stripSlashComments_id (l : List Char)
    (h : l.all (fun x => x ≠ '/') = true) :
    ∀ p, stripSlashComments p false l = l := by
  induction l with
  | nil => intro p; rfl
  | cons x rest ih =>
    intro p
    simp only [List.all_cons, Bool.and_eq_true, decide_eq_true_eq] at h
    obtain ⟨hx, hrest⟩ := h
    unfold stripSlashComments
    rw [if_neg]
    · rw [ih (by simpa [List.all_eq_true] using hrest) (some x)]
    · simp [hx]

/-- The `#`-comment scanner is the identity on hash-free text. -/
theorem stripHashComments_id (l : List Char)
    (h : l.all (fun x => x ≠ '#') = true) :
    ∀ p, stripHashComments p false l = l := by
  induction l with
  | nil => intro p; rfl
  | cons x rest ih =>
    intro p
    simp only [List.all_cons, Bool.and_eq_true, decide_eq_true_eq] at h
    obtain ⟨hx, hrest⟩ := h
    unfold stripHashComments
    rw [if_neg]
    · rw [ih (by simpa [List.all_eq_true] using hrest) (some x)]
    · simp [hx]

/-- The newline substitution replaces each matched newline by the newline
its replacement template expands to: it is the identity on every input. -/
theorem escapeNewlines_id : ∀ (p : Option Char) (l : List Char),
    escapeNewlines p l = l := by
  intro p l
  induction l generalizing p with
  | nil => rfl
  | cons x rest ih =>
    unfold escapeNewlines
    split
    · rename_i h
      simp only [Bool.and_eq_true, decide_eq_true_eq] at h
      rw [ih, h.1]
    · rw [ih]

/-- In normal scanning state, a safe value followed by its closing quote
and a non-whitespace, non-quote character passes through unchanged. -/
theorem ic_normal_value (d : Char) (hdq : d ≠ '"') (hdw : isReWs d = false)
    (rest : List Char) : ∀ v, v.all safeValueChar = true →
    insertCommasGo .normal (v ++ '"' :: d :: rest) =
      v ++ '"' :: d :: insertCommasGo .normal rest := by
  intro v
  induction v with
  | nil =>
    intro _
    simp [insertCommasGo, hdq, hdw]
  | cons x v' ih =>
    intro hall
    simp only [List.all_cons, Bool.and_eq_true] at hall
    have hx := safe_facts x hall.1
    simp only [List.cons_append, insertCommasGo, List.append_eq]
    rw [if_neg hx.2.2.1, ih hall.2]

/-- Same, starting just after an opening quote (with whitespace already
buffered): the candidate match always fails and everything is flushed
unchanged. -/
theorem ic_afterQ1_value (d : Char) (hdq : d ≠ '"') (hdw : isReWs d = false)
    (rest : List Char) : ∀ v, v.all safeValueChar = true → ∀ ws1,
    insertCommasGo (.afterQ1 ws1) (v ++ '"' :: d :: rest) =
      '"' :: ws1 ++ v ++ '"' :: d :: insertCommasGo .normal rest := by
  intro v
  induction v with
  | nil =>
    intro _ ws1
    simp [insertCommasGo, hdq, hdw]
  | cons x v' ih =>
    intro hall ws1
    simp only [List.all_cons, Bool.and_eq_true] at hall
    have hx := safe_facts x hall.1
    by_cases hws : isReWs x = true
    · simp only [List.cons_append, insertCommasGo, List.append_eq]
      rw [if_neg hx.2.2.1, if_pos hws, ih hall.2 (ws1 ++ [x])]
      simp [List.append_assoc]
    · simp only [List.cons_append, insertCommasGo, List.append_eq]
      rw [if_neg hx.2.2.1, if_neg hws,
        ic_normal_value d hdq hdw rest v' hall.2]
      simp [List.append_assoc]

theorem ic_nil : insertCommasGo .normal [] = [] := rfl

theorem ic_prefix1 (rest : List Char) :
    insertCommasGo .normal
      ('{' :: '"' :: 'a' :: 'c' :: 't' :: 'i' :: 'o' :: 'n' :: '"' :: ':' :: ' ' :: '"' :: rest) =
    '{' :: '"' :: 'a' :: 'c' :: 't' :: 'i' :: 'o' :: 'n' :: '"' :: ':' :: ' ' ::
      insertCommasGo (.afterQ1 []) rest := rfl

theorem ic_prefix2 (rest : List Char) :
    insertCommasGo .normal
      (' ' :: '"' :: 'c' :: 'o' :: 'n' :: 't' :: 'e' :: 'n' :: 't' :: '"' :: ':' :: ' ' :: '"' :: rest) =
    ' ' :: '"' :: 'c' :: 'o' :: 'n' :: 't' :: 'e' :: 'n' :: 't' :: '"' :: ':' :: ' ' ::
      insertCommasGo (.afterQ1 []) rest := rfl

theorem ic_prefix3 (rest : List Char) :
    insertCommasGo .normal
      (' ' :: '"' :: 'e' :: 'x' :: 'p' :: 'l' :: 'a' :: 'n' :: 'a' :: 't' :: 'i' :: 'o' :: 'n' :: '"' :: ':' :: ' ' :: '"' :: rest) =
    ' ' :: '"' :: 'e' :: 'x' :: 'p' :: 'l' :: 'a' :: 'n' :: 'a' :: 't' :: 'i' :: 'o' :: 'n' :: '"' :: ':' :: ' ' ::
      insertCommasGo (.afterQ1 []) rest := rfl

/-- The missing-comma pass leaves the canonical reply unchanged. -/
theorem insertCommas_canon (a c e : List Char)
    (ha : a.all safeValueChar = true) (hc : c.all safeValueChar = true)
    (he : e.all safeValueChar = true) :
    insertCommasGo .normal (canonReplyData a c e) = canonReplyData a c e := by
  unfold canonReplyData
  rw [ic_prefix1, ic_afterQ1_value ',' (by decide) (by decide) _ a ha [],
    ic_prefix2, ic_afterQ1_value ',' (by decide) (by decide) _ c hc [],
    ic_prefix3, ic_afterQ1_value '}' (by decide) (by decide) _ e he []]
  simp [ic_nil, List.nil_append]

/-- The trailing-comma pass passes safe values through unchanged. -/
theorem tc_chunk : ∀ v, v.all safeValueChar = true → ∀ rest,
    removeTrailingCommasGo none (v ++ rest) =
      v ++ removeTrailingCommasGo none rest := by
  intro v
  induction v with
  | nil => intro _ rest; rfl
  | cons x v' ih =>
    intro hall rest
    simp only [List.all_cons, Bool.and_eq_true] at hall
    have hx := safe_facts x hall.1
    simp only [List.cons_append, removeTrailingCommasGo, List.append_eq]
    rw [if_neg hx.2.2.2.2.2.2, ih hall.2]

theorem tc_prefix1 (rest : List Char) :
    removeTrailingCommasGo none
      ('{' :: '"' :: 'a' :: 'c' :: 't' :: 'i' :: 'o' :: 'n' :: '"' :: ':' :: ' ' :: '"' :: rest) =
    '{' :: '"' :: 'a' :: 'c' :: 't' :: 'i' :: 'o' :: 'n' :: '"' :: ':' :: ' ' :: '"' ::
      removeTrailingCommasGo none rest := rfl

theorem tc_prefix2 (rest : List Char) :
    removeTrailingCommasGo none
      ('"' :: ',' :: ' ' :: '"' :: 'c' :: 'o' :: 'n' :: 't' :: 'e' :: 'n' :: 't' :: '"' :: ':' :: ' ' :: '"' :: rest) =
    '"' :: ',' :: ' ' :: '"' :: 'c' :: 'o' :: 'n' :: 't' :: 'e' :: 'n' :: 't' :: '"' :: ':' :: ' ' :: '"' ::
      removeTrailingCommasGo none rest := rfl

theorem tc_prefix3 (rest : List Char) :
    removeTrailingCommasGo none
      ('"' :: ',' :: ' ' :: '"' :: 'e' :: 'x' :: 'p' :: 'l' :: 'a' :: 'n' :: 'a' :: 't' :: 'i' :: 'o' :: 'n' :: '"' :: ':' :: ' ' :: '"' :: rest) =
    '"' :: ',' :: ' ' :: '"' :: 'e' :: 'x' :: 'p' :: 'l' :: 'a' :: 'n' :: 'a' :: 't' :: 'i' :: 'o' :: 'n' :: '"' :: ':' :: ' ' :: '"' ::
      removeTrailingCommasGo none rest := rfl

theorem tc_end : removeTrailingCommasGo none ('"' :: '}' :: []) = '"' :: '}' :: [] := rfl

/-- The trailing-comma pass leaves the canonical reply unchanged: its two
commas are followed by a space and a quote, not a closing bracket. -/
theorem removeTrailingCommas_canon (a c e : List Char)
    (ha : a.all safeValueChar = true) (hc : c.all safeValueChar = true)
    (he : e.all safeValueChar = true) :
    removeTrailingCommasGo none (canonReplyData a c e) = canonReplyData a c e := by
  unfold canonReplyData
  rw [tc_prefix1, tc_chunk a ha, tc_prefix2, tc_chunk c hc, tc_prefix3,
    tc_chunk e he, tc_end]

/-- Splitting a text with no line terminators yields one line. -/
theorem splitLinesGo_no_break (l : List Char)
    (h : l.all (fun c => !isLineBreakChar c) = true) :
    ∀ cur, splitLinesGo cur l = [cur.reverse ++ l] := by
  induction l with
  | nil => intro cur; simp [splitLinesGo]
  | cons x rest ih =>
    intro cur
    simp only [List.all_cons, Bool.and_eq_true, Bool.not_eq_eq_eq_not,
      Bool.not_true] at h
    obtain ⟨hx, hrest⟩ := h
    rw [splitLinesGo.eq_def]
    split
    · rename_i heq
      exact absurd heq (by simp)
    · rename_i r heq
      rw [List.cons.injEq] at heq
      obtain ⟨rfl, -⟩ := heq
      simp [isLineBreakChar] at hx
    · rename_i c r hnomatch hcons
      rw [List.cons.injEq] at hcons
      obtain ⟨rfl, rfl⟩ := hcons
      rw [if_neg (by rw [hx]; simp)]
      rw [ih (by simpa [List.all_eq_true] using hrest) (x :: cur)]
      simp

/-- The blank-line pass leaves the canonical reply (a single non-blank
line) unchanged. -/
theorem dropEmptyLines_canon (a c e : List Char)
    (ha : a.all safeValueChar = true) (hc : c.all safeValueChar = true)
    (he : e.all safeValueChar = true) :
    dropEmptyLines (canonReplyData a c e) = canonReplyData a c e := by
  have hall : (canonReplyData a c e).all (fun x => !isLineBreakChar x) = true :=
    canon_all_of _ a c e ha hc he
      (fun x hx => by rw [safe_not_linebreak x hx]; rfl)
      (by decide) (by decide) (by decide) (by decide)
  have hnb : (canonReplyData a c e).any (fun x => !isReWs x) = true := by
    rw [canon_eq_segs]
    simp only [List.any_append, Bool.or_eq_true]
    exact Or.inl (by decide)
  unfold dropEmptyLines
  rw [splitLinesGo_no_break _ hall []]
  simp only [List.reverse_nil, List.nil_append, List.filter, hnb]
  simp [List.intercalate]

/-- The brace-block extraction returns the whole canonical reply. -/
theorem extractJsonBlock_canon (a c e : List Char) :
    extractJsonBlock (canonReplyData a c e) = some (canonReplyData a c e) := by
  have hfront : (canonReplyData a c e).dropWhile (fun x => x ≠ '{') =
      canonReplyData a c e := rfl
  have hR : ∃ R, (canonReplyData a c e).reverse = '}' :: R := by
    rw [canon_eq_segs]
    simp [canonSegD, List.reverse_append, List.append_assoc]
  obtain ⟨R, hRe⟩ := hR
  have hdrop : (canonReplyData a c e).reverse.dropWhile (fun x => x ≠ '}') =
      (canonReplyData a c e).reverse := by
    rw [hRe]
    simp [List.dropWhile_cons]
  simp only [extractJsonBlock, hfront, hdrop]
  rw [if_neg (by intro habs; rw [canonReplyData] at habs; simp at habs)]
  rw [if_neg (by rw [hRe]; simp)]
  rw [List.reverse_reverse]

set_option maxHeartbeats 1600000 in
/-- A safe value inside a JSON string literal is decoded literally up to
its closing quote: no character is an escape or a control character. -/
theorem parseStringBody_safe (v : List Char) (hv : v.all safeValueChar = true)
    (rest : List Char) : parseStringBody (v ++ '"' :: rest) = some (v, rest) := by
  induction v with
  | nil => rfl
  | cons x v' ih =>
    simp only [List.all_cons, Bool.and_eq_true] at hv
    obtain ⟨hx, hv'⟩ := hv
    simp only [safeValueChar, Bool.and_eq_true, decide_eq_true_eq] at hx
    obtain ⟨⟨⟨⟨⟨⟨h32, h126⟩, hq⟩, hb⟩, -⟩, -⟩, -⟩ := hx
    rw [List.cons_append, parseStringBody.eq_def]
    split
    · simp_all
    · rename_i heq
      rw [List.cons.injEq] at heq
      exact absurd heq.1 hq
    · rename_i heq
      rw [List.cons.injEq] at heq
      exact absurd heq.1 hb
    · rename_i c rest2 heq
      rw [List.cons.injEq] at heq
      obtain ⟨rfl, rfl⟩ := heq
      rw [if_neg (by omega)]
      rw [ih hv']
      rfl

/-- One member step of the object parser: the `action` member of the
canonical reply, followed by a comma and further members. -/
theorem parseF_member_action (g : Nat) (a rest' : List Char)
    (ha : a.all safeValueChar = true) :
    parseF (g + 2) (.members
      ('"' :: 'a' :: 'c' :: 't' :: 'i' :: 'o' :: 'n' :: '"' :: ':' :: ' ' :: '"' ::
        (a ++ '"' :: ',' :: rest'))) =
      (match parseF (g + 1) (.members rest') with
       | some (.m xs r5) => some (.m (("action", JValue.str (String.mk a)) :: xs) r5)
       | _ => none) :=
  calc parseF (g + 2) (.members
      ('"' :: 'a' :: 'c' :: 't' :: 'i' :: 'o' :: 'n' :: '"' :: ':' :: ' ' :: '"' ::
        (a ++ '"' :: ',' :: rest')))
      = (match (parseStringBody (a ++ '"' :: ',' :: rest')).map
            (fun p => ParseOut.v (JValue.str (String.mk p.1)) p.2) with
         | some (.v v r3) =>
           (match r3.dropWhile isJsonWs with
            | ',' :: r4 =>
              (match parseF (g + 1) (.members r4) with
               | some (.m xs r5) => some (.m (("action", v) :: xs) r5)
               | _ => none)
            | '}' :: r4 => some (.m [("action", v)] r4)
            | _ => none)
         | _ => none) := rfl
    _ = (match parseF (g + 1) (.members rest') with
         | some (.m xs r5) => some (.m (("action", JValue.str (String.mk a)) :: xs) r5)
         | _ => none) := by
      rw [parseStringBody_safe a ha (',' :: rest')]
      rfl

/-- One member step of the object parser: the `content` member of the
canonical reply, after the space that follows the previous comma. -/
theorem parseF_member_content (g : Nat) (c rest' : List Char)
    (hc : c.all safeValueChar = true) :
    parseF (g + 2) (.members
      (' ' :: '"' :: 'c' :: 'o' :: 'n' :: 't' :: 'e' :: 'n' :: 't' :: '"' :: ':' :: ' ' :: '"' ::
        (c ++ '"' :: ',' :: rest'))) =
      (match parseF (g + 1) (.members rest') with
       | some (.m xs r5) => some (.m (("content", JValue.str (String.mk c)) :: xs) r5)
       | _ => none) :=
  calc parseF (g + 2) (.members
      (' ' :: '"' :: 'c' :: 'o' :: 'n' :: 't' :: 'e' :: 'n' :: 't' :: '"' :: ':' :: ' ' :: '"' ::
        (c ++ '"' :: ',' :: rest')))
      = (match (parseStringBody (c ++ '"' :: ',' :: rest')).map
            (fun p => ParseOut.v (JValue.str (String.mk p.1)) p.2) with
         | some (.v v r3) =>
           (match r3.dropWhile isJsonWs with
            | ',' :: r4 =>
              (match parseF (g + 1) (.members r4) with
               | some (.m xs r5) => some (.m (("content", v) :: xs) r5)
               | _ => none)
            | '}' :: r4 => some (.m [("content", v)] r4)
            | _ => none)
         | _ => none) := rfl
    _ = (match parseF (g + 1) (.members rest') with
         | some (.m xs r5) => some (.m (("content", JValue.str (String.mk c)) :: xs) r5)
         | _ => none) := by
      rw [parseStringBody_safe c hc (',' :: rest')]
      rfl

/-- The last member step of the object parser: the `explanation` member of
the canonical reply, followed by the closing brace. -/
theorem parseF_member_explanation (g : Nat) (e : List Char)
    (he : e.all safeValueChar = true) :
    parseF (g + 2) (.members
      (' ' :: '"' :: 'e' :: 'x' :: 'p' :: 'l' :: 'a' :: 'n' :: 'a' :: 't' :: 'i' :: 'o' :: 'n' :: '"' :: ':' :: ' ' :: '"' ::
        (e ++ '"' :: '}' :: []))) =
      some (.m [("explanation", JValue.str (String.mk e))] []) :=
  calc parseF (g + 2) (.members
      (' ' :: '"' :: 'e' :: 'x' :: 'p' :: 'l' :: 'a' :: 'n' :: 'a' :: 't' :: 'i' :: 'o' :: 'n' :: '"' :: ':' :: ' ' :: '"' ::
        (e ++ '"' :: '}' :: [])))
      = (match (parseStringBody (e ++ '"' :: '}' :: [])).map
            (fun p => ParseOut.v (JValue.str (String.mk p.1)) p.2) with
         | some (.v v r3) =>
           (match r3.dropWhile isJsonWs with
            | ',' :: r4 =>
              (match parseF (g + 1) (.members r4) with
               | some (.m xs r5) => some (.m (("explanation", v) :: xs) r5)
               | _ => none)
            | '}' :: r4 => some (.m [("explanation", v)] r4)
            | _ => none)
         | _ => none) := rfl
    _ = some (.m [("explanation", JValue.str (String.mk e))] []) := by
      rw [parseStringBody_safe e he ('}' :: [])]
      rfl

/-- The recursive-descent parser on the canonical reply: an object with
the three members and their literal values, no remainder. -/
theorem parseF_canon (a c e : List Char)
    (ha : a.all safeValueChar = true) (hc : c.all safeValueChar = true)
    (he : e.all safeValueChar = true) (f : Nat) :
    parseF (f + 5) (.val (canonReplyData a c e)) =
      some (.v (.obj [("action", JValue.str (String.mk a)),
                      ("content", JValue.str (String.mk c)),
                      ("explanation", JValue.str (String.mk e))]) []) :=
  calc parseF (f + 5) (.val (canonReplyData a c e))
      = (match parseF (f + 4) (.members
            ('"' :: 'a' :: 'c' :: 't' :: 'i' :: 'o' :: 'n' :: '"' :: ':' :: ' ' :: '"' ::
              (a ++ '"' :: ',' ::
                (' ' :: '"' :: 'c' :: 'o' :: 'n' :: 't' :: 'e' :: 'n' :: 't' :: '"' :: ':' :: ' ' :: '"' ::
                  (c ++ '"' :: ',' ::
                    (' ' :: '"' :: 'e' :: 'x' :: 'p' :: 'l' :: 'a' :: 'n' :: 'a' :: 't' :: 'i' :: 'o' :: 'n' :: '"' :: ':' :: ' ' :: '"' ::
                      (e ++ '"' :: '}' :: []))))))) with
         | some (.m xs r) => some (.v (.obj (dedupPairs xs)) r)
         | _ => none) := rfl
    _ = some (.v (.obj [("action", JValue.str (String.mk a)),
                        ("content", JValue.str (String.mk c)),
                        ("explanation", JValue.str (String.mk e))]) []) := by
      rw [show f + 4 = f + 2 + 2 from rfl]
      rw [parseF_member_action (f + 2) a _ ha]
      rw [show f + 2 + 1 = f + 1 + 2 from rfl]
      rw [parseF_member_content (f + 1) c _ hc]
      rw [show f + 1 + 1 = f + 2 from rfl]
      rw [parseF_member_explanation f e he]
      rfl

/-- `json.loads` accepts the canonical reply and returns the three-member
object. -/
theorem jsonParse_canon (a c e : List Char)
    (ha : a.all safeValueChar = true) (hc : c.all safeValueChar = true)
    (he : e.all safeValueChar = true) :
    jsonParse (canonReplyData a c e) =
      some (.obj [("action", JValue.str (String.mk a)),
                  ("content", JValue.str (String.mk c)),
                  ("explanation", JValue.str (String.mk e))]) := by
  unfold jsonParse
  rw [parseF_canon a c e ha hc he (canonReplyData a c e).length]
  rfl

/-- The repair pipeline (`_clean_json_string`) is the identity on the
canonical reply. -/
theorem cleanJsonString_canon (a c e : List Char)
    (ha : a.all safeValueChar = true) (hc : c.all safeValueChar = true)
    (he : e.all safeValueChar = true) :
    cleanJsonString (canonReplyData a c e) = canonReplyData a c e := by
  have hs : (canonReplyData a c e).all (fun x => x ≠ '/') = true :=
    canon_all_of _ a c e ha hc he
      (fun x hx => decide_eq_true (safe_facts x hx).2.2.2.2.1)
      (by decide) (by decide) (by decide) (by decide)
  have hh : (canonReplyData a c e).all (fun x => x ≠ '#') = true :=
    canon_all_of _ a c e ha hc he
      (fun x hx => decide_eq_true (safe_facts x hx).2.2.2.2.2.1)
      (by decide) (by decide) (by decide) (by decide)
  unfold cleanJsonString
  rw [extractJsonBlock_canon]
  show dropEmptyLines
      (removeTrailingCommasGo none
        (insertCommasGo .normal
          (escapeNewlines none
            (stripHashComments none false
              (stripSlashComments none false (canonReplyData a c e)))))) =
    canonReplyData a c e
  rw [stripSlashComments_id _ hs none, stripHashComments_id _ hh none,
    escapeNewlines_id, insertCommas_canon a c e ha hc he,
    removeTrailingCommas_canon a c e ha hc he,
    dropEmptyLines_canon a c e ha hc he]

/-- C2 (amended): recovering the already-well-formed reply
`{"action": "<a>", "content": "<c>", "explanation": "<e>"}` returns
exactly those three field values unchanged, provided the values consist of
printable ASCII characters that avoid the characters the repair
heuristics key on (double quote, backslash, `/`, `#`, comma).  Without
that proviso the claim is false: `repair_mutates_valid_input` shows the
comment-stripping pass mutating a well-formed reply whose content value
contains a space-preceded `//`. -/
theorem repair_preserves_safe_wellformed (a c e : List Char)
    (ha : a.all safeValueChar = true) (hc : c.all safeValueChar = true)
    (he : e.all safeValueChar = true) :
    parseAIResponse (String.mk (canonReplyData a c e)) =
      [("action", JValue.str (String.mk a)),
       ("content", JValue.str (String.mk c)),
       ("explanation", JValue.str (String.mk e))] := by
  unfold parseAIResponse
  rw [show (String.mk (canonReplyData a c e)).data = canonReplyData a c e from rfl]
  rw [extractJsonBlock_canon]
  show dispatchParsed (String.mk (canonReplyData a c e))
      (jsonParse (cleanJsonString (canonReplyData a c e))) =
    [("action", JValue.str (String.mk a)),
     ("content", JValue.str (String.mk c)),
     ("explanation", JValue.str (String.mk e))]
  rw [cleanJsonString_canon a c e ha hc he, jsonParse_canon a c e ha hc he]
  rfl

/-- Witness for the amended C2: a concrete well-formed reply whose three
values are repair-trigger-free is recovered verbatim. -/
theorem repair_preserves_safe_wellformed_witness :
    parseAIResponse (String.mk (canonReplyData
        "add_code".data "print(1)".data "done".data)) =
      [("action", JValue.str "add_code"),
       ("content", JValue.str "print(1)"),
       ("explanation", JValue.str "done")] := by
  have h := repair_preserves_safe_wellformed
    "add_code".data "print(1)".data "done".data
    (by decide) (by decide) (by decide)
  exact h

end AIWP
